import Mathlib

/-!
State engine, generic trust set, seed helpers and quota groups: a
verification development

Shallow embedding of `overlord/stateengine.go`, `asserts/sysdb/generic.go` and
`seed/helpers.go`; the quota operations exercised by
`overlord/servicestate/quota_control_test.go` are modelled from the design
document, their code not being among the files at hand.

* A manager is an interface value with three methods that return an `error`
  and may touch anything reachable from the process.  Everything a manager
  can read or write is collected in a world `W`; a method is a function from
  the world to an error result (`none` is Go's `nil`) and the next world.
* The `*state.State` pointer held by the engine is a value of a type `St`.
* Every method call made by the engine is logged as a `Call`, carrying the
  position of the manager in `se.managers`, so that the order and number of
  calls can be stated.
-/

namespace Overlord

/-- StateManager: the three methods of the Go interface, over a world `W`. -/
structure StateManager (St W E : Type) where
  Init : St → W → Option E × W
  Ensure : W → Option E × W
  Stop : W → Option E × W

/-- StateEngine: the three fields of the Go struct. -/
structure StateEngine (St W E : Type) where
  state : St
  managers : List (StateManager St W E)
  inited : Bool

/-- One method call made by the engine on the manager at position `i`. -/
inductive Call (St : Type) where
  | Init (i : Nat) (s : St)
  | Ensure (i : Nat)
  | Stop (i : Nat)
  deriving DecidableEq, Repr

/-- Outcome of one `for _, m := range se.managers` loop. -/
structure LoopResult (St W E : Type) where
  err : Option E
  world : W
  calls : List (Call St)

/-- Outcome of one engine method: returned error, engine fields afterwards,
world afterwards, and the calls made, oldest first. -/
structure Result (St W E : Type) where
  err : Option E
  engine : StateEngine St W E
  world : W
  calls : List (Call St)

variable {St W E : Type}

/-- The loop shape shared by the three loops of the engine:
`for _, m := range ms { err := f(m); if err != nil { return err } }`.
`i` is the position of the head of `ms`; `tag i` is the log entry of the call
on the manager at position `i`.  `err = some e` means the enclosing function
returned `e` from inside the loop. -/
def forRange (f : StateManager St W E → W → Option E × W) (tag : Nat → Call St) :
    Nat → List (StateManager St W E) → W → LoopResult St W E
  | _, [], w => ⟨none, w, []⟩
  | i, m :: ms, w =>
    match f m w with
    | (some e, w1) => ⟨some e, w1, [tag i]⟩
    | (none, w1) =>
      let r := forRange f tag (i + 1) ms w1
      ⟨r.err, r.world, tag i :: r.calls⟩

/-- NewStateEngine returns a new state engine. -/
def NewStateEngine (s : St) : StateEngine St W E :=
  { state := s, managers := [], inited := false }

/-- State returns the current system state. -/
def StateEngine.State (se : StateEngine St W E) : St := se.state

/-- AddManager: `se.managers = append(se.managers, m)`. -/
def StateEngine.AddManager (se : StateEngine St W E) (m : StateManager St W E) :
    StateEngine St W E :=
  { se with managers := se.managers ++ [m] }

/-- Ensure, as in the source: the Init loop guarded by `!se.inited`, the
assignment `se.inited = true`, then the Ensure loop. -/
def StateEngine.Ensure (se : StateEngine St W E) (w : W) : Result St W E :=
  if !se.inited then
    let r := forRange (fun m => m.Init se.state) (fun i => Call.Init i se.state) 0 se.managers w
    match r.err with
    | some e => ⟨some e, se, r.world, r.calls⟩
    | none =>
      let se1 : StateEngine St W E := { se with inited := true }
      let r2 := forRange (fun m => m.Ensure) Call.Ensure 0 se1.managers r.world
      match r2.err with
      | some e => ⟨some e, se1, r2.world, r.calls ++ r2.calls⟩
      | none => ⟨none, se1, r2.world, r.calls ++ r2.calls⟩
  else
    let r2 := forRange (fun m => m.Ensure) Call.Ensure 0 se.managers w
    match r2.err with
    | some e => ⟨some e, se, r2.world, r2.calls⟩
    | none => ⟨none, se, r2.world, r2.calls⟩

/-- Stop, as in the source: inside `if se.inited`, the Stop loop returning at
the first non-nil error, then `se.inited = false`; `return nil` at the end. -/
def StateEngine.Stop (se : StateEngine St W E) (w : W) : Result St W E :=
  if se.inited then
    let r := forRange (fun m => m.Stop) Call.Stop 0 se.managers w
    match r.err with
    | some e => ⟨some e, se, r.world, r.calls⟩
    | none => ⟨none, { se with inited := false }, r.world, r.calls⟩
  else
    ⟨none, se, w, []⟩

/-! ### Vocabulary for stating what the managers do -/

/-- The world after calling `f` on each manager of `ms` in order, whatever
each call returns. -/
def worldAfter (f : StateManager St W E → W → Option E × W) :
    List (StateManager St W E) → W → W
  | [], w => w
  | m :: ms, w => worldAfter f ms (f m w).2

/-- Calling `f` on each manager of `ms` in order, starting in `w`, every call
returns nil. -/
def allNil (f : StateManager St W E → W → Option E × W) :
    List (StateManager St W E) → W → Bool
  | [], _ => true
  | m :: ms, w => (f m w).1.isNone && allNil f ms (f m w).2

/-- The log entries `tag i, tag (i+1), ..., tag (i+n-1)`. -/
def callsFrom (tag : Nat → Call St) (i n : Nat) : List (Call St) :=
  (List.range' i n).map tag

/-- A manager whose methods return fixed results and leave the world alone. -/
def constManager (init ensure stop : Option E) : StateManager St W E :=
  { Init := fun _ w => (init, w), Ensure := fun w => (ensure, w), Stop := fun w => (stop, w) }

/-! ### Concrete engines used as inputs -/

/-- Error values of the example managers. -/
inductive ExErr where
  | initFailed
  | ensureFailed
  | stopFailed
  deriving DecidableEq, Repr

/-- A manager whose methods return fixed results; the world counts the method
calls that actually ran. -/
def countingManager (init ensure stop : Option ExErr) : StateManager Unit Nat ExErr :=
  { Init := fun _ w => (init, w + 1), Ensure := fun w => (ensure, w + 1),
    Stop := fun w => (stop, w + 1) }

/-- Two managers registered through the public API: the Stop of the first
returns an error, every other method returns nil. -/
def stopErrEngine : StateEngine Unit Nat ExErr :=
  ((NewStateEngine ()).AddManager (countingManager none none (some ExErr.stopFailed))).AddManager
    (countingManager none none none)

/-- Three managers, not inited: the Init of the second returns an error. -/
def initErrEngine : StateEngine Unit Nat ExErr :=
  { state := (),
    managers := [countingManager none none none,
                 countingManager (some ExErr.initFailed) none none,
                 countingManager none none none],
    inited := false }

/-- Three managers, inited: the Ensure of the second returns an error. -/
def ensureErrEngine : StateEngine Unit Nat ExErr :=
  { state := (),
    managers := [countingManager none none none,
                 countingManager none (some ExErr.ensureFailed) none,
                 countingManager none none none],
    inited := true }

/-- Two managers, not inited, all of whose methods return nil. -/
def healthyEngine : StateEngine Unit Nat ExErr :=
  { state := (),
    managers := [countingManager none none none, countingManager none none none],
    inited := false }

/-- Two managers, inited, that leave the world alone; the Ensure of the second
returns an error. -/
def frameEngine : StateEngine Unit Nat ExErr :=
  { state := (),
    managers := [constManager none none none, constManager none (some ExErr.ensureFailed) none],
    inited := true }

/-- A manager over a world made of the content of the state (a number) and a
flag that is private to the manager.  Its Ensure never touches the content of
the state; it sets the flag, and returns an error once the flag is set. -/
def flagManager : StateManager Unit (Nat × Bool) ExErr :=
  { Init := fun _ w => (none, w),
    Ensure := fun w => (if w.2 then some ExErr.ensureFailed else none, (w.1, true)),
    Stop := fun w => (none, w) }

/-- One such manager, inited. -/
def flagEngine : StateEngine Unit (Nat × Bool) ExErr :=
  { state := (), managers := [flagManager], inited := true }

/-- One manager, inited, whose Ensure returns an error: the engine a later
AddManager is applied to. -/
def ensureFailsEngine : StateEngine Unit Nat ExErr :=
  { state := (),
    managers := [countingManager none (some ExErr.ensureFailed) none],
    inited := true }

/-- One manager, inited, all of whose methods return nil. -/
def runningEngine : StateEngine Unit Nat ExErr :=
  { state := (),
    managers := [countingManager none none none],
    inited := true }

end Overlord

namespace Sysdb

/-- The package-level variables of `generic.go`.  Slices are lists; the three
`*asserts.Model` pointers are options, `none` being the nil pointer. -/
structure Vars (A M : Type) where
  genericAssertions : List A
  genericStagingAssertions : List A
  genericExtraAssertions : List A
  genericClassicModel : Option M
  genericStagingClassicModel : Option M
  genericClassicModelOverride : Option M

variable {A M : Type}

/-- Go's `append(s, xs...)`, on the elements of the slices. -/
def goAppend (s xs : List A) : List A := s ++ xs

/-- Go's `make([]T, n)`: `n` zero values; `default` is the zero value of the
element type (the nil interface for `asserts.Assertion`). -/
def goMake [Inhabited A] (n : Nat) : List A := List.replicate n default

/-- Go's `copy(dst, src)`: the first `min(len(dst), len(src))` elements of
`dst` are overwritten by those of `src`; the length of `dst` is kept. -/
def goCopy (dst src : List A) : List A := src.take dst.length ++ dst.drop src.length

/-- Go's `copy(dst[off:], src)`, seen on the whole of `dst`. -/
def goCopyAt (dst : List A) (off : Nat) (src : List A) : List A :=
  dst.take off ++ goCopy (dst.drop off) src

/-- Generic, as in the source; `useStagingStore` is the value
`snapdenv.UseStagingStore()` returns.  The second component is the
package-level variables after the call. -/
def Generic (useStagingStore : Bool) (v : Vars A M) : List A × Vars A M :=
  let generic : List A := []
  let generic :=
    if !useStagingStore then goAppend generic v.genericAssertions
    else goAppend generic v.genericStagingAssertions
  let generic := goAppend generic v.genericExtraAssertions
  (generic, v)

/-- InjectGeneric, as in the source.  The first component is the returned
`restore` closure, acting on the package-level variables at the time it is
called; the second is the package-level variables after the injection. -/
def InjectGeneric [Inhabited A] (extra : List A) (v : Vars A M) :
    (Vars A M → Vars A M) × Vars A M :=
  let prev := v.genericExtraAssertions
  let fresh : List A := goMake (prev.length + extra.length)
  let fresh := goCopy fresh prev
  let fresh := goCopyAt fresh prev.length extra
  (fun v1 => { v1 with genericExtraAssertions := prev },
   { v with genericExtraAssertions := fresh })

/-- GenericClassicModel, as in the source. -/
def GenericClassicModel (useStagingStore : Bool) (v : Vars A M) : Option M :=
  if v.genericClassicModelOverride.isSome then v.genericClassicModelOverride
  else if !useStagingStore then v.genericClassicModel
  else v.genericStagingClassicModel

/-- MockGenericClassicModel, as in the source.  The first component is the
returned `restore` closure, acting on the package-level variables at the time
it is called; the second is the package-level variables after the call. -/
def MockGenericClassicModel (mod : Option M) (v : Vars A M) :
    (Vars A M → Vars A M) × Vars A M :=
  let prevOverride := v.genericClassicModelOverride
  (fun v1 => { v1 with genericClassicModelOverride := prevOverride },
   { v with genericClassicModelOverride := mod })

/-- Package-level variables with a predefined and a staging generic-classic
model and no override; assertions and models are numbered. -/
def plainVars : Vars Nat Nat :=
  { genericAssertions := [10, 11],
    genericStagingAssertions := [20],
    genericExtraAssertions := [],
    genericClassicModel := some 1,
    genericStagingClassicModel := some 2,
    genericClassicModelOverride := none }

end Sysdb

namespace Seed

/-- The six `snap.Type` constants snapTypeFromModel returns.  They are declared
in package `snap`, outside the files at hand, so they are taken as given
values of a type `T`. -/
structure SnapTypes (T : Type) where
  TypeApp : T
  TypeBase : T
  TypeGadget : T
  TypeKernel : T
  TypeOS : T
  TypeSnapd : T

/-- The field of `asserts.ModelSnap` that snapTypeFromModel reads. -/
structure ModelSnap where
  SnapType : String

/-- snapTypeFromModel, as in the source: a switch on `modSnap.SnapType`. -/
def snapTypeFromModel {T : Type} (snap : SnapTypes T) (modSnap : ModelSnap) : T :=
  if modSnap.SnapType = "base" then snap.TypeBase
  else if modSnap.SnapType = "core" then snap.TypeOS
  else if modSnap.SnapType = "gadget" then snap.TypeGadget
  else if modSnap.SnapType = "kernel" then snap.TypeKernel
  else if modSnap.SnapType = "snapd" then snap.TypeSnapd
  else snap.TypeApp

/-- Numbered stand-ins for the six constants. -/
def numberedTypes : SnapTypes Nat :=
  { TypeApp := 0, TypeBase := 1, TypeGadget := 2, TypeKernel := 3, TypeOS := 4, TypeSnapd := 5 }

/-- What loadAssertions and readAsserts use from outside helpers.go, taken as
given: the directory listing (`ioutil.ReadDir`, entry names in the order it
returns them), `os.IsNotExist`, the package error `ErrNoAssertions`,
`fmt.Errorf` on the formatted message, the `Error()` text of an error,
`filepath.Join`, `os.Open`, `asserts.NewBatch(nil)` and `Batch.AddStream`
(result and the batch afterwards). -/
structure Deps (Err File Batch Ref : Type) where
  ReadDir : String → Except Err (List String)
  IsNotExist : Err → Bool
  ErrNoAssertions : Err
  Errorf : String → Err
  Error : Err → String
  Join : String → String → String
  Open : String → Except Err File
  NewBatch : Batch
  AddStream : Batch → File → Except Err (List Ref) × Batch

/-- Outcome of loadAssertions: the returned batch pointer (`none` is nil), the
returned error, the world left by the `loadedFunc` calls, the file names
passed to readAsserts and the references passed to `loadedFunc`, both oldest
first. -/
structure LoadResult (Err Batch Ref W : Type) where
  batch : Option Batch
  err : Option Err
  world : W
  opened : List String
  loaded : List Ref

variable {Err File Batch Ref W : Type}

/-- readAsserts, as in the source: open the file, then `batch.AddStream`. -/
def readAsserts (d : Deps Err File Batch Ref) (batch : Batch) (fn : String) :
    Except Err (List Ref) × Batch :=
  match d.Open fn with
  | .error e => (.error e, batch)
  | .ok f => d.AddStream batch f

/-- The inner loop of loadAssertions:
`for _, ref := range refs { if err := loadedFunc(ref); err != nil { return nil, err } }`.
The third component lists the references `loadedFunc` was called on. -/
def callLoaded (loadedFunc : Ref → W → Option Err × W) :
    List Ref → W → Option Err × W × List Ref
  | [], w => (none, w, [])
  | ref :: refs, w =>
    match loadedFunc ref w with
    | (some e, w1) => (some e, w1, [ref])
    | (none, w1) =>
      let r := callLoaded loadedFunc refs w1
      (r.1, r.2.1, ref :: r.2.2)

/-- The outer loop of loadAssertions over the directory entries `dc`, from the
batch and world reached so far; `return batch, nil` when the entries are
exhausted. -/
def loadLoop (d : Deps Err File Batch Ref) (assertsDir : String)
    (loadedFunc : Option (Ref → W → Option Err × W)) :
    List String → Batch → W → LoadResult Err Batch Ref W
  | [], batch, w => ⟨some batch, none, w, [], []⟩
  | name :: dc, batch, w =>
    let fn := d.Join assertsDir name
    match readAsserts d batch fn with
    | (.error e, _) =>
      ⟨none, some (d.Errorf ("cannot read assertions: " ++ d.Error e)), w, [fn], []⟩
    | (.ok refs, batch1) =>
      match loadedFunc with
      | none =>
        let r := loadLoop d assertsDir loadedFunc dc batch1 w
        ⟨r.batch, r.err, r.world, fn :: r.opened, r.loaded⟩
      | some f =>
        match callLoaded f refs w with
        | (some e, w1, called) => ⟨none, some e, w1, [fn], called⟩
        | (none, w1, called) =>
          let r := loadLoop d assertsDir loadedFunc dc batch1 w1
          ⟨r.batch, r.err, r.world, fn :: r.opened, called ++ r.loaded⟩

/-- loadAssertions, as in the source. -/
def loadAssertions (d : Deps Err File Batch Ref) (assertsDir : String)
    (loadedFunc : Option (Ref → W → Option Err × W)) (w : W) : LoadResult Err Batch Ref W :=
  match d.ReadDir assertsDir with
  | .error e =>
    if d.IsNotExist e then ⟨none, some d.ErrNoAssertions, w, [], []⟩
    else ⟨none, some (d.Errorf ("cannot read assertions dir: " ++ d.Error e)), w, [], []⟩
  | .ok dc => loadLoop d assertsDir loadedFunc dc d.NewBatch w

/-! ### Vocabulary for stating what the files and `loadedFunc` do -/

/-- Reading the files of `dc` one after the other with readAsserts, with no
`loadedFunc` involved: the references each file yields and the batch at the
end, or `none` when some file cannot be read. -/
def readAll (d : Deps Err File Batch Ref) (assertsDir : String) :
    List String → Batch → Option (List (List Ref) × Batch)
  | [], batch => some ([], batch)
  | name :: dc, batch =>
    match readAsserts d batch (d.Join assertsDir name) with
    | (.error _, _) => none
    | (.ok refs, batch1) =>
      match readAll d assertsDir dc batch1 with
      | none => none
      | some (rss, batch2) => some (refs :: rss, batch2)

/-- Calling `loadedFunc` on each reference of `refs` in order, every call
returns nil. -/
def loadedAllNil (loadedFunc : Ref → W → Option Err × W) : List Ref → W → Bool
  | [], _ => true
  | ref :: refs, w => (loadedFunc ref w).1.isNone && loadedAllNil loadedFunc refs (loadedFunc ref w).2

/-- The world after calling `loadedFunc` on each reference of `refs` in order. -/
def loadedWorldAfter (loadedFunc : Ref → W → Option Err × W) : List Ref → W → W
  | [], w => w
  | ref :: refs, w => loadedWorldAfter loadedFunc refs (loadedFunc ref w).2

/-- With a nil `loadedFunc` nothing is called; with a non-nil one, every call
on the references of `refs`, in order, returns nil. -/
def optAllNil (loadedFunc : Option (Ref → W → Option Err × W)) (refs : List Ref) (w : W) : Bool :=
  match loadedFunc with
  | none => true
  | some f => loadedAllNil f refs w

/-- The world after the calls of a possibly nil `loadedFunc` on `refs`. -/
def optWorldAfter (loadedFunc : Option (Ref → W → Option Err × W)) (refs : List Ref) (w : W) : W :=
  match loadedFunc with
  | none => w
  | some f => loadedWorldAfter f refs w

/-- The references a possibly nil `loadedFunc` is called on when it is offered
`refs` and never fails: none when it is nil, all of them otherwise. -/
def optLoaded (loadedFunc : Option (Ref → W → Option Err × W)) (refs : List Ref) : List Ref :=
  match loadedFunc with
  | none => []
  | some _ => refs

/-! ### A concrete seed directory -/

/-- The elements of a slash-separated path, empty ones included. -/
def splitSlash (cs : List Char) : List (List Char) :=
  cs.foldr
    (fun c acc =>
      if c = '/' then [] :: acc
      else
        match acc with
        | [] => [[c]]
        | h :: t => (c :: h) :: t)
    [[]]

/-- One element of `filepath.Clean`, on the elements kept so far (last one
first): empty and "." elements are dropped, ".." takes away the element
before it, is dropped at the start of a rooted path and kept otherwise. -/
def cleanStep (rooted : Bool) (kept : List (List Char)) (elem : List Char) : List (List Char) :=
  if elem = [] ∨ elem = ['.'] then kept
  else if elem = ['.', '.'] then
    match kept with
    | [] => if rooted then [] else [elem]
    | top :: rest => if top = ['.', '.'] then elem :: kept else rest
  else elem :: kept

/-- The function `filepath.Clean` for slash-separated paths. -/
def goClean (path : String) : String :=
  let rooted : Bool := path.data.head? = some '/'
  let kept := (splitSlash path.data).foldl (cleanStep rooted) []
  let body := String.intercalate "/" (kept.reverse.map String.mk)
  if rooted then "/" ++ body else if body = "" then "." else body

/-- The function `filepath.Join` on two elements: empty elements are ignored,
the others are joined by the separator and the result is cleaned; with no
non-empty element the result is empty. -/
def goJoin (dir name : String) : String :=
  if dir = "" ∧ name = "" then ""
  else if dir = "" then goClean name
  else if name = "" then goClean dir
  else goClean (dir ++ "/" ++ name)

/-- Errors of the example: the two `os.Open` failures, carrying the path they
are about, and three package-level errors. -/
inductive ExError where
  | notExist (path : String)
  | permission (path : String)
  | noAssertions
  | formatted (msg : String)
  | refused
  deriving DecidableEq, Repr

/-- Two seed directories, listed in name order as `ioutil.ReadDir` does:
"seed" holds the files "a" (references 1, 2) and "b" (reference 3); "broken"
holds "a", the unreadable "b", and "c" (reference 4); the directory "locked"
cannot be opened and any other directory does not exist.  A file is the list
of its references, a batch the list of references added to it. -/
def exampleDeps : Deps ExError (List Nat) (List Nat) Nat :=
  { ReadDir := fun dir =>
      if dir = "seed" then .ok ["a", "b"]
      else if dir = "broken" then .ok ["a", "b", "c"]
      else if dir = "locked" then .error (ExError.permission dir)
      else .error (ExError.notExist dir),
    IsNotExist := fun e =>
      match e with
      | .notExist _ => true
      | _ => false,
    ErrNoAssertions := ExError.noAssertions,
    Errorf := ExError.formatted,
    Error := fun e =>
      match e with
      | .notExist path => "open " ++ path ++ ": no such file or directory"
      | .permission path => "open " ++ path ++ ": permission denied"
      | .noAssertions => "no seed assertions"
      | .formatted msg => msg
      | .refused => "refused",
    Join := goJoin,
    Open := fun fn =>
      if fn = "seed/a" ∨ fn = "broken/a" then .ok [1, 2]
      else if fn = "seed/b" then .ok [3]
      else if fn = "broken/c" then .ok [4]
      else if fn = "broken/b" then .error (ExError.permission fn)
      else .error (ExError.notExist fn),
    NewBatch := [],
    AddStream := fun batch f => (.ok f, batch ++ f) }

/-- A `loadedFunc` that logs each reference into the world and refuses the
reference `bad`. -/
def loggingFunc (bad : Nat) : Nat → List Nat → Option ExError × List Nat :=
  fun ref w => (if ref = bad then some ExError.refused else none, w ++ [ref])

end Seed

namespace Servicestate

/-- Modelled from the spec: the quota group record of package servicestate is
not under src/.  The fields are those the spec's scenarios and
`checkQuotaState` in quota_control_test.go read: name, memory limit,
sub-groups, parent group and member snaps. -/
structure QuotaGroup where
  Name : String
  MemoryLimit : Nat
  SubGroups : List String
  ParentGroup : String
  Snaps : List String
  deriving DecidableEq, Repr

/-- Modelled from the spec: a Task enqueued by a quota operation (§3, §8),
reduced to its kind and the snap or group it is about. -/
structure Task where
  Kind : String
  Subject : String
  deriving DecidableEq, Repr

/-- Modelled from the spec: the part of the State (§3) the quota operations
work on, the quota groups (what `AllQuotas` returns) and the Tasks enqueued so
far, oldest first. -/
structure State where
  quotas : List QuotaGroup
  tasks : List Task
  deriving DecidableEq, Repr

/-- Errors of the quota operations; the spec names none.  `preseeding` is the
refusal "removing quota groups not supported while preseeding" that
TestRemoveQuotaPreseeding expects. -/
inductive QuotaError where
  | groupNotFound (name : String)
  | preseeding
  deriving DecidableEq, Repr

/-- Whether `snap` is a member of some quota group of the state. -/
def inSomeQuota (st : State) (snap : String) : Bool :=
  st.quotas.any (fun g => g.Snaps.contains snap)

/-- The group `g` without the member `snap`, every other field and the other
members, in their order, kept. -/
def withoutSnap (snap : String) (g : QuotaGroup) : QuotaGroup :=
  { g with Snaps := g.Snaps.filter (fun sn => sn ≠ snap) }

/-- Modelled from the spec: servicestate.EnsureSnapAbsentFromQuota is not
under src/ (only its test is).  Spec §8, scenario D: the first call "enqueues
a restart Task" for the snap "and removes it from the group's member list";
the second call "is a no-op (idempotent), no new Task enqueued, no error".
The test adds that a snap in no quota group is not an error. -/
def EnsureSnapAbsentFromQuota (st : State) (snap : String) : Option QuotaError × State :=
  if inSomeQuota st snap then
    (none, { quotas := st.quotas.map (withoutSnap snap),
             tasks := st.tasks ++ [⟨"restart", snap⟩] })
  else
    (none, st)

/-- The group `g` with the memory limit `limit` when it is named `name`, and
`g` itself otherwise. -/
def withLimit (name : String) (limit : Nat) (g : QuotaGroup) : QuotaGroup :=
  if g.Name = name then { g with MemoryLimit := limit } else g

/-- Modelled from the spec: servicestate.UpdateQuota is not under src/ (only
its test is).  Spec §8, scenario C: updating the limit of an existing group
enqueues "exactly one new Task (update-slice)", "no recreate Tasks", and the
group has the new limit at the end. -/
def UpdateQuota (st : State) (name : String) (newMemoryLimit : Nat) :
    Option QuotaError × State :=
  if st.quotas.any (fun g => g.Name = name) then
    (none, { quotas := st.quotas.map (withLimit name newMemoryLimit),
             tasks := st.tasks ++ [⟨"update-slice", name⟩] })
  else
    (some (QuotaError.groupNotFound name), st)

/-- Modelled from the spec: servicestate.RemoveQuota is not under src/, and
the spec has no sentence on it, so the model keeps to what the two tests that
call it assert.  While preseeding (`preseeding` is what
`snapdenv.Preseeding()` returns) removing "doesn't work" and "we purposely
fail" with the error "removing quota groups not supported while preseeding"
(TestRemoveQuotaPreseeding).  Otherwise RemoveQuota(st, "foo") returns no error
and, "foo" being the only group, leaves no group
(TestCreateUpdateRemoveQuotaHappy); it is taken to remove the group of the
given name and no other.  No Task is named for it anywhere, so the Task list
is left as it is. -/
def RemoveQuota (preseeding : Bool) (st : State) (name : String) : Option QuotaError × State :=
  if preseeding then
    (some QuotaError.preseeding, st)
  else if st.quotas.any (fun g => g.Name = name) then
    (none, { st with quotas := st.quotas.filter (fun g => g.Name ≠ name) })
  else
    (some (QuotaError.groupNotFound name), st)

/-- The size `quantity.SizeGiB`. -/
def SizeGiB : Nat := 2 ^ 30

/-- The end state of the spec's scenario A (§8): group "foo" with a 1 GiB
limit and the member "test-snap", after the three Tasks of its creation. -/
def scenarioA : State :=
  { quotas := [{ Name := "foo", MemoryLimit := SizeGiB, SubGroups := [], ParentGroup := "",
                 Snaps := ["test-snap"] }],
    tasks := [⟨"create-slice", "foo"⟩, ⟨"start-slice", "foo"⟩,
              ⟨"restart-member-service", "test-snap"⟩] }

/-- A state with two quota groups: "foo" as in scenario A and a second group
"bar" with a 1 GiB limit and the member "other-snap". -/
def twoGroups : State :=
  { quotas := [{ Name := "foo", MemoryLimit := SizeGiB, SubGroups := [], ParentGroup := "",
                 Snaps := ["test-snap"] },
               { Name := "bar", MemoryLimit := SizeGiB, SubGroups := [], ParentGroup := "",
                 Snaps := ["other-snap"] }],
    tasks := [] }

/-- The state of TestEnsureSnapAbsentFromQuotaGroup after CreateQuota: group
"foo" with a 1 GiB limit and the members "test-snap" and "test-snap2". -/
def twoMembers : State :=
  { quotas := [{ Name := "foo", MemoryLimit := SizeGiB, SubGroups := [], ParentGroup := "",
                 Snaps := ["test-snap", "test-snap2"] }],
    tasks := [] }

end Servicestate

/-! ## Loop lemmas -/

namespace Overlord

variable {St W E : Type}

theorem callsFrom_succ (tag : Nat → Call St) (i n : Nat) :
    callsFrom tag i (n + 1) = tag i :: callsFrom tag (i + 1) n := by
  simp [callsFrom, List.range'_succ]

theorem forRange_of_allNil (f : StateManager St W E → W → Option E × W) (tag : Nat → Call St)
    (ms : List (StateManager St W E)) :
    ∀ (i : Nat) (w : W), allNil f ms w = true →
      forRange f tag i ms w = ⟨none, worldAfter f ms w, callsFrom tag i ms.length⟩ := by
  induction ms with
  | nil => intro i w _; rfl
  | cons m ms ih =>
    intro i w h
    simp only [allNil, Bool.and_eq_true] at h
    obtain ⟨h1, h2⟩ := h
    have hf : f m w = (none, (f m w).2) := by
      cases hfm : f m w with
      | mk a b =>
        rw [hfm] at h1
        cases a with
        | none => rfl
        | some e => simp at h1
    rw [forRange, hf]
    simp only
    rw [ih (i + 1) _ h2]
    simp [worldAfter, callsFrom_succ]

theorem forRange_first_error (f : StateManager St W E → W → Option E × W) (tag : Nat → Call St)
    (pre : List (StateManager St W E)) (m : StateManager St W E)
    (post : List (StateManager St W E)) (e : E) :
    ∀ (i : Nat) (w : W), allNil f pre w = true → (f m (worldAfter f pre w)).1 = some e →
      forRange f tag i (pre ++ m :: post) w =
        ⟨some e, (f m (worldAfter f pre w)).2, callsFrom tag i (pre.length + 1)⟩ := by
  induction pre with
  | nil =>
    intro i w _ hk
    simp only [worldAfter] at hk
    have hf : f m w = (some e, (f m w).2) := by
      cases hfm : f m w with
      | mk a b => rw [hfm] at hk; simp at hk; simp [hk]
    simp only [List.nil_append, forRange, worldAfter]
    rw [hf]
    simp [callsFrom]
  | cons p pre ih =>
    intro i w h hk
    simp only [allNil, Bool.and_eq_true] at h
    obtain ⟨h1, h2⟩ := h
    have hf : f p w = (none, (f p w).2) := by
      cases hfm : f p w with
      | mk a b =>
        rw [hfm] at h1
        cases a with
        | none => rfl
        | some e => simp at h1
    simp only [worldAfter] at hk
    rw [List.cons_append, forRange, hf]
    simp only
    rw [ih (i + 1) _ h2 hk]
    simp [worldAfter, callsFrom_succ]

/-- Either every call returns nil, or the list splits at the first manager
whose call returns an error. -/
theorem allNil_or_split (f : StateManager St W E → W → Option E × W)
    (ms : List (StateManager St W E)) :
    ∀ w : W, allNil f ms w = true ∨
      ∃ pre m post e, ms = pre ++ m :: post ∧ allNil f pre w = true ∧
        (f m (worldAfter f pre w)).1 = some e := by
  induction ms with
  | nil => intro w; left; rfl
  | cons m ms ih =>
    intro w
    cases hfm : (f m w).1 with
    | some e => right; exact ⟨[], m, ms, e, rfl, rfl, by simpa [worldAfter] using hfm⟩
    | none =>
      rcases ih (f m w).2 with h | ⟨pre, k, post, e, hms, hpre, hk⟩
      · left; simp [allNil, hfm, h]
      · right
        refine ⟨m :: pre, k, post, e, by simp [hms], by simp [allNil, hfm, hpre], ?_⟩
        simpa [worldAfter] using hk

/-- When no call changes the part `view` of the world, the loop leaves that
part as it was. -/
theorem forRange_view_of_frame {S : Type} (view : W → S)
    (f : StateManager St W E → W → Option E × W) (tag : Nat → Call St)
    (ms : List (StateManager St W E)) (hfr : ∀ m ∈ ms, ∀ w, view (f m w).2 = view w) :
    ∀ (i : Nat) (w : W), view (forRange f tag i ms w).world = view w := by
  induction ms with
  | nil => intro i w; rfl
  | cons m ms ih =>
    intro i w
    have hm := hfr m (List.mem_cons_self _ _) w
    have ih1 := ih (fun k hk => hfr k (List.mem_cons_of_mem _ hk))
    rw [forRange]
    cases hfm : f m w with
    | mk a b =>
      rw [hfm] at hm
      simp only at hm
      cases a with
      | some e => exact hm
      | none => exact (ih1 (i + 1) b).trans hm

/-- When no call changes the part `view` of the world and the result of each
call depends on that part only, two runs of the loop from worlds with the
same `view` return the same error after the same calls. -/
theorem forRange_congr_of_view {S : Type} (view : W → S)
    (f : StateManager St W E → W → Option E × W) (tag : Nat → Call St)
    (ms : List (StateManager St W E)) (hfr : ∀ m ∈ ms, ∀ w, view (f m w).2 = view w)
    (hdep : ∀ m ∈ ms, ∀ w w1, view w = view w1 → (f m w).1 = (f m w1).1) :
    ∀ (i : Nat) (w w1 : W), view w = view w1 →
      (forRange f tag i ms w).err = (forRange f tag i ms w1).err ∧
      (forRange f tag i ms w).calls = (forRange f tag i ms w1).calls := by
  induction ms with
  | nil => intro i w w1 _; exact ⟨rfl, rfl⟩
  | cons m ms ih =>
    intro i w w1 hv
    have hm := hfr m (List.mem_cons_self _ _)
    have hd := hdep m (List.mem_cons_self _ _) w w1 hv
    have ih1 := ih (fun k hk => hfr k (List.mem_cons_of_mem _ hk))
      (fun k hk => hdep k (List.mem_cons_of_mem _ hk))
    have hv2 : view (f m w).2 = view (f m w1).2 := by rw [hm w, hm w1, hv]
    rw [forRange, forRange]
    cases hfm : f m w with
    | mk a b =>
      cases hfm1 : f m w1 with
      | mk a1 b1 =>
        rw [hfm, hfm1] at hd hv2
        simp only at hd hv2
        subst hd
        cases a with
        | some e => exact ⟨rfl, rfl⟩
        | none =>
          obtain ⟨h1, h2⟩ := ih1 (i + 1) b b1 hv2
          exact ⟨h1, by simp only [h2]⟩

end Overlord

/-! ## The state engine -/

namespace Overlord

variable {St W E : Type}

theorem Ensure_of_inited (se : StateEngine St W E) (w : W) (h : se.inited = true) :
    se.Ensure w =
      ⟨(forRange (fun m => m.Ensure) Call.Ensure 0 se.managers w).err, se,
       (forRange (fun m => m.Ensure) Call.Ensure 0 se.managers w).world,
       (forRange (fun m => m.Ensure) Call.Ensure 0 se.managers w).calls⟩ := by
  unfold StateEngine.Ensure
  simp only [h, Bool.not_true, Bool.false_eq_true, if_false]
  split <;> simp_all

theorem Ensure_of_init_error (se : StateEngine St W E) (w : W) (e : E) (h : se.inited = false)
    (he : (forRange (fun m => m.Init se.state) (fun i => Call.Init i se.state) 0
      se.managers w).err = some e) :
    se.Ensure w =
      ⟨some e, se,
       (forRange (fun m => m.Init se.state) (fun i => Call.Init i se.state) 0 se.managers w).world,
       (forRange (fun m => m.Init se.state) (fun i => Call.Init i se.state) 0
         se.managers w).calls⟩ := by
  unfold StateEngine.Ensure
  simp only [h, Bool.not_false, if_true, he]

theorem Ensure_of_init_ok (se : StateEngine St W E) (w : W) (h : se.inited = false)
    (he : (forRange (fun m => m.Init se.state) (fun i => Call.Init i se.state) 0
      se.managers w).err = none) :
    se.Ensure w =
      ⟨(forRange (fun m => m.Ensure) Call.Ensure 0 se.managers
          (forRange (fun m => m.Init se.state) (fun i => Call.Init i se.state) 0
            se.managers w).world).err,
       { se with inited := true },
       (forRange (fun m => m.Ensure) Call.Ensure 0 se.managers
          (forRange (fun m => m.Init se.state) (fun i => Call.Init i se.state) 0
            se.managers w).world).world,
       (forRange (fun m => m.Init se.state) (fun i => Call.Init i se.state) 0
            se.managers w).calls ++
       (forRange (fun m => m.Ensure) Call.Ensure 0 se.managers
          (forRange (fun m => m.Init se.state) (fun i => Call.Init i se.state) 0
            se.managers w).world).calls⟩ := by
  unfold StateEngine.Ensure
  simp only [h, Bool.not_false, if_true, he]
  split <;> simp_all

theorem forRange_calls_initial (f : StateManager St W E → W → Option E × W) (tag : Nat → Call St)
    (ms : List (StateManager St W E)) :
    ∀ (i : Nat) (w : W), ∃ k, k ≤ ms.length ∧ (0 < ms.length → 0 < k) ∧
      (forRange f tag i ms w).calls = callsFrom tag i k := by
  induction ms with
  | nil => intro i w; exact ⟨0, le_refl _, fun h => h, rfl⟩
  | cons m ms ih =>
    intro i w
    rw [forRange]
    cases hfm : f m w with
    | mk a b =>
      cases a with
      | some e =>
        exact ⟨1, by simp, fun _ => Nat.one_pos, by simp [callsFrom]⟩
      | none =>
        obtain ⟨k, hk, _, hc⟩ := ih (i + 1) b
        exact ⟨k + 1, by simpa using hk, fun _ => Nat.succ_pos k, by simp [hc, callsFrom_succ]⟩

theorem forRange_err_eq_none_iff (f : StateManager St W E → W → Option E × W)
    (tag : Nat → Call St) (ms : List (StateManager St W E)) (i : Nat) (w : W) :
    (forRange f tag i ms w).err = none ↔ allNil f ms w = true := by
  constructor
  · intro h
    rcases allNil_or_split f ms w with hall | ⟨pre, m, post, e, hms, hpre, hk⟩
    · exact hall
    · rw [hms, forRange_first_error f tag pre m post e i w hpre hk] at h
      simp at h
  · intro h
    rw [forRange_of_allNil f tag ms i w h]

theorem Ensure_calls_head (se : StateEngine St W E) (w : W) (h : se.inited = false)
    (hne : se.managers ≠ []) : ∃ t, (se.Ensure w).calls = Call.Init 0 se.state :: t := by
  obtain ⟨k, _, hpos, hc⟩ := forRange_calls_initial (fun m => m.Init se.state)
    (fun i => Call.Init i se.state) se.managers 0 w
  have hk : 0 < k := hpos (List.length_pos.mpr hne)
  obtain ⟨j, rfl⟩ : ∃ j, k = j + 1 := ⟨k - 1, by omega⟩
  rw [callsFrom_succ] at hc
  cases he : (forRange (fun m => m.Init se.state) (fun i => Call.Init i se.state) 0
      se.managers w).err with
  | some e =>
    rw [Ensure_of_init_error se w e h he]
    exact ⟨_, hc⟩
  | none =>
    rw [Ensure_of_init_ok se w h he]
    simp only [hc, List.cons_append]
    exact ⟨_, rfl⟩

/-- Stop on an inited engine all of whose managers return nil from Stop: every
manager is stopped, in order, and the inited flag is cleared. -/
theorem Stop_of_inited_allNil (se : StateEngine St W E) (w : W) (h : se.inited = true)
    (hall : allNil (fun m => m.Stop) se.managers w = true) :
    se.Stop w =
      ⟨none, { se with inited := false }, worldAfter (fun m => m.Stop) se.managers w,
       callsFrom Call.Stop 0 se.managers.length⟩ := by
  unfold StateEngine.Stop
  simp only [h, if_true, forRange_of_allNil _ _ _ 0 w hall]

/-- Stop on an inited engine where `m` is the first manager whose Stop returns
an error: the loop returns there, the managers in `post` are not called and
the inited flag stays set. -/
theorem Stop_of_inited_first_error (se : StateEngine St W E) (w : W)
    (pre : List (StateManager St W E)) (m : StateManager St W E)
    (post : List (StateManager St W E)) (e : E)
    (h : se.inited = true) (hms : se.managers = pre ++ m :: post)
    (hpre : allNil (fun k => k.Stop) pre w = true)
    (hk : (m.Stop (worldAfter (fun k => k.Stop) pre w)).1 = some e) :
    se.Stop w =
      ⟨some e, se, (m.Stop (worldAfter (fun k => k.Stop) pre w)).2,
       callsFrom Call.Stop 0 (pre.length + 1)⟩ := by
  unfold StateEngine.Stop
  simp only [h, if_true, hms, forRange_first_error _ _ pre m post e 0 w hpre hk]

/-- C1, the code at the failing input: two managers are registered with
AddManager and a first Ensure sets inited; the Stop of the first manager
returns an error.  StateEngine.Stop then returns that error right after the
single call `Stop 0`, so the Stop of the second manager is never called,
where its doc comment promises the error "after all managers are stopped". -/
theorem C1_Stop_returns_before_later_managers :
    (stopErrEngine.Ensure 0).err = none ∧
    (stopErrEngine.Ensure 0).engine.inited = true ∧
    (stopErrEngine.Ensure 0).engine.managers.length = 2 ∧
    ((stopErrEngine.Ensure 0).engine.Stop (stopErrEngine.Ensure 0).world).err =
      some ExErr.stopFailed ∧
    ((stopErrEngine.Ensure 0).engine.Stop (stopErrEngine.Ensure 0).world).calls =
      [Call.Stop 0] ∧
    Call.Stop 1 ∉ ((stopErrEngine.Ensure 0).engine.Stop (stopErrEngine.Ensure 0).world).calls := by
  decide

/-- C2, the code at the failing input: on the engine of C1, after
StateEngine.Stop has returned the first manager's error the inited flag is
still true, and the next StateEngine.Ensure calls `Ensure 0, Ensure 1` with no
Init before them. -/
theorem C2_Stop_error_leaves_inited_set :
    ((stopErrEngine.Ensure 0).engine.Stop 4).err = some ExErr.stopFailed ∧
    ((stopErrEngine.Ensure 0).engine.Stop 4).engine.inited = true ∧
    ((stopErrEngine.Ensure 0).world = 4 ∧ ((stopErrEngine.Ensure 0).engine.Stop 4).world = 5) ∧
    (((stopErrEngine.Ensure 0).engine.Stop 4).engine.Ensure 5).calls =
      [Call.Ensure 0, Call.Ensure 1] := by
  decide

/-- C3: on an engine that is not inited, when the managers before `m` all
return nil from Init (called in order, starting in world `w`) and the Init of
`m` returns the error `e`, StateEngine.Ensure makes exactly the calls
Init 0, ..., Init k-1 (k the position of `m`, counted from 1) with the engine
state, calls no Ensure, returns `e`, leaves the engine as it was (inited still
false) and the world as the Init of `m` left it; and the next
StateEngine.Ensure, in any world, begins with Init on the first manager. -/
theorem C3_Ensure_aborts_at_first_Init_error (se : StateEngine St W E) (w : W)
    (pre : List (StateManager St W E)) (m : StateManager St W E)
    (post : List (StateManager St W E)) (e : E)
    (hin : se.inited = false) (hms : se.managers = pre ++ m :: post)
    (hpre : allNil (fun k => k.Init se.state) pre w = true)
    (hk : (m.Init se.state (worldAfter (fun k => k.Init se.state) pre w)).1 = some e) :
    (se.Ensure w).calls = callsFrom (fun i => Call.Init i se.state) 0 (pre.length + 1) ∧
    (∀ i, Call.Ensure i ∉ (se.Ensure w).calls) ∧
    (se.Ensure w).err = some e ∧
    (se.Ensure w).engine = se ∧
    (se.Ensure w).engine.inited = false ∧
    (se.Ensure w).world = (m.Init se.state (worldAfter (fun k => k.Init se.state) pre w)).2 ∧
    (∀ w1, ∃ t, ((se.Ensure w).engine.Ensure w1).calls = Call.Init 0 se.state :: t) := by
  have hloop := forRange_first_error (fun k => k.Init se.state) (fun i => Call.Init i se.state)
    pre m post e 0 w hpre hk
  have hE := Ensure_of_init_error se w e hin (by rw [hms, hloop])
  rw [hms, hloop] at hE
  rw [hE]
  refine ⟨rfl, ?_, rfl, rfl, hin, rfl, ?_⟩
  · intro i
    simp [callsFrom]
  · intro w1
    exact Ensure_calls_head se w1 hin (by rw [hms]; simp)

/-- C3 at a concrete engine: three managers, the Init of the second fails. -/
theorem C3_witness :
    (initErrEngine.Ensure 0).calls = [Call.Init 0 (), Call.Init 1 ()] ∧
    (initErrEngine.Ensure 0).err = some ExErr.initFailed ∧
    (initErrEngine.Ensure 0).engine.inited = false ∧
    (initErrEngine.Ensure 0).world = 2 :=
  have h := C3_Ensure_aborts_at_first_Init_error initErrEngine 0
    [countingManager none none none] (countingManager (some ExErr.initFailed) none none)
    [countingManager none none none] ExErr.initFailed rfl rfl rfl rfl
  ⟨h.1, h.2.2.1, h.2.2.2.2.1, h.2.2.2.2.2.1⟩

theorem foldl_AddManager (ms : List (StateManager St W E)) :
    ∀ se : StateEngine St W E,
      ms.foldl StateEngine.AddManager se = { se with managers := se.managers ++ ms } := by
  induction ms with
  | nil => intro se; simp
  | cons m ms ih => intro se; simp [ih, StateEngine.AddManager]

theorem no_Init_in_callsFrom_Ensure (i k j : Nat) (s : St) :
    Call.Init j s ∉ callsFrom (Call.Ensure : Nat → Call St) i k := by
  simp [callsFrom]

/-- C4: on an inited engine StateEngine.Ensure leaves the engine as it is,
calls no Init, and calls Ensure 0, Ensure 1, ... on an initial segment of the
managers; it returns nil exactly when every manager's Ensure, called in
order, returns nil, and then all managers were called; and when the manager
`m` is the first whose Ensure returns an error `e`, it returns `e` right after
the call on `m`, with no call on a later manager. -/
theorem C4_Ensure_when_inited (se : StateEngine St W E) (w : W) (h : se.inited = true) :
    (se.Ensure w).engine = se ∧
    (∀ i s, Call.Init i s ∉ (se.Ensure w).calls) ∧
    (∃ k, k ≤ se.managers.length ∧ (se.Ensure w).calls = callsFrom Call.Ensure 0 k) ∧
    ((se.Ensure w).err = none ↔ allNil (fun m => m.Ensure) se.managers w = true) ∧
    (allNil (fun m => m.Ensure) se.managers w = true →
      (se.Ensure w).calls = callsFrom Call.Ensure 0 se.managers.length ∧
      (se.Ensure w).world = worldAfter (fun m => m.Ensure) se.managers w) ∧
    (∀ pre m post e, se.managers = pre ++ m :: post →
      allNil (fun m => m.Ensure) pre w = true →
      (m.Ensure (worldAfter (fun m => m.Ensure) pre w)).1 = some e →
        (se.Ensure w).err = some e ∧
        (se.Ensure w).calls = callsFrom Call.Ensure 0 (pre.length + 1) ∧
        (se.Ensure w).world = (m.Ensure (worldAfter (fun m => m.Ensure) pre w)).2) ∧
    (allNil (fun m => m.Ensure) se.managers w = true ∨
      ∃ pre m post e, se.managers = pre ++ m :: post ∧
        allNil (fun m => m.Ensure) pre w = true ∧
        (m.Ensure (worldAfter (fun m => m.Ensure) pre w)).1 = some e) := by
  rw [Ensure_of_inited se w h]
  obtain ⟨k, hk, _, hc⟩ := forRange_calls_initial (fun m : StateManager St W E => m.Ensure)
    Call.Ensure se.managers 0 w
  refine ⟨rfl, ?_, ⟨k, hk, hc⟩, ?_, ?_, ?_, ?_⟩
  · intro i s
    simp only [hc]
    exact no_Init_in_callsFrom_Ensure 0 k i s
  · exact forRange_err_eq_none_iff _ _ _ _ _
  · intro hall
    simp only [forRange_of_allNil _ _ _ 0 w hall, and_self]
  · intro pre m post e hms hpre hm
    simp only [hms, forRange_first_error _ _ pre m post e 0 w hpre hm, and_self]
  · exact allNil_or_split _ _ _

/-- C4 at a concrete engine: three managers, the Ensure of the second fails. -/
theorem C4_witness :
    ensureErrEngine.inited = true ∧
    (ensureErrEngine.Ensure 0).err = some ExErr.ensureFailed ∧
    (ensureErrEngine.Ensure 0).calls = [Call.Ensure 0, Call.Ensure 1] ∧
    (ensureErrEngine.Ensure 0).world = 2 :=
  ⟨rfl, (C4_Ensure_when_inited ensureErrEngine 0 rfl).2.2.2.2.2.1
    [countingManager none none none] (countingManager none (some ExErr.ensureFailed) none)
    [countingManager none none none] ExErr.ensureFailed rfl rfl rfl⟩

/-- C5: on an engine that is not inited and whose managers' Init all return
nil (called in order from world `w`), one StateEngine.Ensure calls
Init 0, ..., Init n-1, each with the state the engine was created with (the
value State() returns), sets inited to true and changes no other field, and
only then calls Ensure 0, ..., Ensure k-1 (all n of them when they all return
nil, at least one when there is a manager); a second StateEngine.Ensure, in
any world, calls no Init. -/
theorem C5_first_Ensure_inits_then_ensures (se : StateEngine St W E) (w : W)
    (hin : se.inited = false)
    (hok : allNil (fun m => m.Init se.state) se.managers w = true) :
    se = se.managers.foldl StateEngine.AddManager (NewStateEngine se.State) ∧
    (NewStateEngine se.state : StateEngine St W E).State = se.state ∧
    (se.Ensure w).engine = { se with inited := true } ∧
    (se.Ensure w).engine.inited = true ∧
    (∃ k, k ≤ se.managers.length ∧ (0 < se.managers.length → 0 < k) ∧
      (se.Ensure w).calls =
        callsFrom (fun i => Call.Init i se.State) 0 se.managers.length ++
          callsFrom Call.Ensure 0 k) ∧
    (allNil (fun m => m.Ensure) se.managers
        (worldAfter (fun m => m.Init se.state) se.managers w) = true →
      (se.Ensure w).err = none ∧
      (se.Ensure w).calls =
        callsFrom (fun i => Call.Init i se.State) 0 se.managers.length ++
          callsFrom Call.Ensure 0 se.managers.length) ∧
    (∀ w1 i s, Call.Init i s ∉ ((se.Ensure w).engine.Ensure w1).calls) := by
  have hinit := forRange_of_allNil (fun m => m.Init se.state) (fun i => Call.Init i se.state)
    se.managers 0 w hok
  have hE := Ensure_of_init_ok se w hin (by rw [hinit])
  rw [hinit] at hE
  simp only at hE
  rw [hE]
  refine ⟨?_, rfl, rfl, rfl, ?_, ?_, ?_⟩
  · rw [foldl_AddManager]
    cases se with
    | mk st ms ini =>
      simp only at hin
      subst hin
      simp [NewStateEngine, StateEngine.State]
  · obtain ⟨k, hk, hpos, hc⟩ := forRange_calls_initial (fun m : StateManager St W E => m.Ensure)
      Call.Ensure se.managers 0 (worldAfter (fun m => m.Init se.state) se.managers w)
    exact ⟨k, hk, hpos, by simp only [hc, StateEngine.State]⟩
  · intro hall
    simp only [forRange_of_allNil _ _ _ 0 _ hall, StateEngine.State, and_self]
  · intro w1 i s
    have h2 := (Ensure_of_inited ({ se with inited := true } : StateEngine St W E) w1 rfl)
    obtain ⟨k, _, _, hc⟩ := forRange_calls_initial (fun m : StateManager St W E => m.Ensure)
      Call.Ensure se.managers 0 w1
    simp only at h2
    rw [h2]
    simp only [hc]
    exact no_Init_in_callsFrom_Ensure 0 k i s

/-- C5 at a concrete engine: two managers whose methods all return nil. -/
theorem C5_witness :
    healthyEngine.inited = false ∧
    (healthyEngine.Ensure 0).engine.inited = true ∧
    (healthyEngine.Ensure 0).err = none ∧
    (healthyEngine.Ensure 0).calls =
      [Call.Init 0 (), Call.Init 1 (), Call.Ensure 0, Call.Ensure 1] :=
  have h := C5_first_Ensure_inits_then_ensures healthyEngine 0 rfl rfl
  ⟨rfl, h.2.2.2.1, (h.2.2.2.2.2.1 rfl).1, (h.2.2.2.2.2.1 rfl).2⟩

/-- C6: on an engine whose inited flag is false StateEngine.Stop calls no
manager's Stop, returns nil, and leaves the engine (manager list, state,
inited flag) and the world unchanged. -/
theorem C6_Stop_when_not_inited (se : StateEngine St W E) (w : W) (h : se.inited = false) :
    (se.Stop w).calls = [] ∧
    (se.Stop w).err = none ∧
    (se.Stop w).engine = se ∧
    (se.Stop w).engine.managers = se.managers ∧
    (se.Stop w).engine.state = se.state ∧
    (se.Stop w).engine.inited = false ∧
    (se.Stop w).world = w := by
  unfold StateEngine.Stop
  simp [h]

/-- C6 at concrete engines: a freshly created engine with two managers, and
the engine left by a failed Init sequence. -/
theorem C6_witness :
    (healthyEngine.inited = false ∧ (healthyEngine.Stop 3).calls = [] ∧
      (healthyEngine.Stop 3).err = none ∧ (healthyEngine.Stop 3).world = 3) ∧
    ((initErrEngine.Ensure 0).engine.Stop 2).calls = [] :=
  ⟨⟨rfl, (C6_Stop_when_not_inited healthyEngine 3 rfl).1,
    (C6_Stop_when_not_inited healthyEngine 3 rfl).2.1,
    (C6_Stop_when_not_inited healthyEngine 3 rfl).2.2.2.2.2.2⟩,
   (C6_Stop_when_not_inited (initErrEngine.Ensure 0).engine 2 rfl).1⟩

/-- C7 as stated fails for a manager that keeps data of its own: the Ensure of
`flagManager` never changes the content of the state, yet on the inited
engine holding it the first StateEngine.Ensure returns nil and the second one,
right after it, returns an error; the state and the engine are the same after
both. -/
theorem C7_counterexample_private_flag :
    flagEngine.inited = true ∧
    (∀ m ∈ flagEngine.managers, ∀ w, (m.Ensure w).2.1 = w.1) ∧
    (flagEngine.Ensure (5, false)).err = none ∧
    ((flagEngine.Ensure (5, false)).engine.Ensure (flagEngine.Ensure (5, false)).world).err =
      some ExErr.ensureFailed ∧
    (flagEngine.Ensure (5, false)).world.1 = 5 ∧
    ((flagEngine.Ensure (5, false)).engine.Ensure (flagEngine.Ensure (5, false)).world).world.1 =
      5 := by
  refine ⟨rfl, ?_, rfl, rfl, rfl, rfl⟩
  intro m hm w
  simp only [flagEngine, List.mem_singleton] at hm
  subst hm
  rfl

/-- C7, amended: on an inited engine StateEngine.Ensure leaves the manager
list, the state reference and the inited flag as they were, whatever it
returns.  With `view` the part of the world that is the state: when no
manager's Ensure changes the state, a StateEngine.Ensure leaves the state as
it was, and so does a second one right after it, with the same engine; when
in addition the result of every manager's Ensure depends on the state only,
the second call returns the same result as the first, after the same calls. -/
theorem C7_Ensure_idempotent_on_engine {S : Type} (se : StateEngine St W E) (view : W → S)
    (h : se.inited = true) :
    (∀ w, (se.Ensure w).engine = se ∧
      (se.Ensure w).engine.managers = se.managers ∧
      (se.Ensure w).engine.state = se.state ∧
      (se.Ensure w).engine.inited = true) ∧
    ((∀ m ∈ se.managers, ∀ w, view (m.Ensure w).2 = view w) →
      ∀ w, view (se.Ensure w).world = view w ∧
        view ((se.Ensure w).engine.Ensure (se.Ensure w).world).world =
          view (se.Ensure w).world ∧
        ((se.Ensure w).engine.Ensure (se.Ensure w).world).engine = (se.Ensure w).engine) ∧
    ((∀ m ∈ se.managers, ∀ w, view (m.Ensure w).2 = view w) →
      (∀ m ∈ se.managers, ∀ w w1, view w = view w1 → (m.Ensure w).1 = (m.Ensure w1).1) →
      ∀ w, ((se.Ensure w).engine.Ensure (se.Ensure w).world).err = (se.Ensure w).err ∧
        ((se.Ensure w).engine.Ensure (se.Ensure w).world).calls = (se.Ensure w).calls) := by
  have he : ∀ w, (se.Ensure w).engine = se := by
    intro w
    rw [Ensure_of_inited se w h]
  have hview : (∀ m ∈ se.managers, ∀ w, view (m.Ensure w).2 = view w) →
      ∀ w, view (se.Ensure w).world = view w := by
    intro hfr w
    rw [Ensure_of_inited se w h]
    exact forRange_view_of_frame view _ _ _ hfr 0 w
  refine ⟨?_, ?_, ?_⟩
  · intro w
    rw [Ensure_of_inited se w h]
    exact ⟨rfl, rfl, rfl, h⟩
  · intro hfr w
    refine ⟨hview hfr w, ?_, ?_⟩
    · rw [he w]
      exact hview hfr _
    · rw [he w, he _]
  · intro hfr hdep w
    have hv := hview hfr w
    rw [he w]
    generalize (se.Ensure w).world = w1 at hv
    rw [Ensure_of_inited se w h, Ensure_of_inited se w1 h]
    exact forRange_congr_of_view view _ _ _ hfr hdep 0 w1 w hv

/-- C7 at concrete engines: `flagEngine`, whose manager keeps the state (the
first component of the world), and `frameEngine`, whose managers change
nothing and return fixed results, the second an error. -/
theorem C7_witness :
    (flagEngine.inited = true ∧
      ((flagEngine.Ensure (5, false)).engine.Ensure (flagEngine.Ensure (5, false)).world).world.1 =
        (flagEngine.Ensure (5, false)).world.1) ∧
    (frameEngine.inited = true ∧
      (frameEngine.Ensure 7).err = some ExErr.ensureFailed ∧
      ((frameEngine.Ensure 7).engine.Ensure (frameEngine.Ensure 7).world).err =
        (frameEngine.Ensure 7).err) :=
  have hflag : ∀ m ∈ flagEngine.managers, ∀ w, (m.Ensure w).2.1 = w.1 := by
    intro m hm w
    simp only [flagEngine, List.mem_singleton] at hm
    subst hm
    rfl
  have hmem : ∀ m ∈ frameEngine.managers,
      m = constManager none none none ∨ m = constManager none (some ExErr.ensureFailed) none := by
    intro m hm
    simpa [frameEngine] using hm
  have hfr : ∀ m ∈ frameEngine.managers, ∀ w, id (m.Ensure w).2 = id w := by
    intro m hm w
    rcases hmem m hm with rfl | rfl <;> rfl
  have hdep : ∀ m ∈ frameEngine.managers, ∀ w w1, id w = id w1 →
      (m.Ensure w).1 = (m.Ensure w1).1 := by
    intro m hm w w1 _
    rcases hmem m hm with rfl | rfl <;> rfl
  ⟨⟨rfl, ((C7_Ensure_idempotent_on_engine flagEngine (fun w => w.1) rfl).2.1 hflag
      (5, false)).2.1⟩,
   ⟨rfl, rfl, ((C7_Ensure_idempotent_on_engine frameEngine id rfl).2.2 hfr hdep 7).1⟩⟩

end Overlord

/-! ## The generic trust set -/

namespace Sysdb

variable {A M : Type}

theorem goCopy_goMake [Inhabited A] (p : List A) (n : Nat) :
    goCopy (goMake (p.length + n)) p = p ++ List.replicate n default := by
  simp [goCopy, goMake, List.take_of_length_le]

theorem goCopyAt_append_replicate (p e : List A) (d : A) :
    goCopyAt (p ++ List.replicate e.length d) p.length e = p ++ e := by
  simp [goCopyAt, goCopy]

theorem InjectGeneric_extra [Inhabited A] (extra : List A) (v : Vars A M) :
    (InjectGeneric extra v).2.genericExtraAssertions = v.genericExtraAssertions ++ extra := by
  simp only [InjectGeneric]
  rw [goCopy_goMake, goCopyAt_append_replicate]

/-- C8: Generic returns the predefined generic assertions (the staging list
when the staging store is in use) followed by the injected extra assertions,
each list in its stored order, and leaves the package-level variables, so all
three stored lists, as they were. -/
theorem C8_Generic_is_base_then_extra (u : Bool) (v : Vars A M) :
    (Generic false v).1 = v.genericAssertions ++ v.genericExtraAssertions ∧
    (Generic true v).1 = v.genericStagingAssertions ++ v.genericExtraAssertions ∧
    (Generic u v).2 = v ∧
    (Generic u v).2.genericAssertions = v.genericAssertions ∧
    (Generic u v).2.genericStagingAssertions = v.genericStagingAssertions ∧
    (Generic u v).2.genericExtraAssertions = v.genericExtraAssertions := by
  simp [Generic, goAppend]

/-- C9: after InjectGeneric(extra) the value of Generic() is its value from
before the call followed by the elements of extra in order; the returned
restore function, called on the variables the injection left, gives back the
variables from before the injection, so Generic() has its earlier value
again; and called at any later time it reinstates the extra list from before
the injection. -/
theorem C9_InjectGeneric_appends_and_restores [Inhabited A] (u : Bool) (extra : List A)
    (v : Vars A M) :
    (Generic u (InjectGeneric extra v).2).1 = (Generic u v).1 ++ extra ∧
    (InjectGeneric extra v).1 (InjectGeneric extra v).2 = v ∧
    (Generic u ((InjectGeneric extra v).1 (InjectGeneric extra v).2)).1 = (Generic u v).1 ∧
    (∀ v2 : Vars A M,
      ((InjectGeneric extra v).1 v2).genericExtraAssertions = v.genericExtraAssertions) := by
  have hx := InjectGeneric_extra extra v
  have hr : (InjectGeneric extra v).1 (InjectGeneric extra v).2 = v := by
    simp [InjectGeneric]
  refine ⟨?_, hr, by rw [hr], fun v2 => by simp [InjectGeneric]⟩
  have ha : (InjectGeneric extra v).2.genericAssertions = v.genericAssertions := by
    simp [InjectGeneric]
  have hs : (InjectGeneric extra v).2.genericStagingAssertions = v.genericStagingAssertions := by
    simp [InjectGeneric]
  cases u <;> simp [Generic, goAppend, hx, ha, hs]

/-- C10: GenericClassicModel returns the override model whenever one is set,
whatever the staging-store setting; with no override it returns the
predefined generic-classic model when the staging store is not in use and the
staging generic-classic model when it is. -/
theorem C10_GenericClassicModel_cases (u : Bool) (m : M) (v : Vars A M) :
    GenericClassicModel u { v with genericClassicModelOverride := some m } = some m ∧
    GenericClassicModel false { v with genericClassicModelOverride := none } =
      v.genericClassicModel ∧
    GenericClassicModel true { v with genericClassicModelOverride := none } =
      v.genericStagingClassicModel := by
  simp [GenericClassicModel]

end Sysdb

/-! ## Mocking the generic-classic model, nested injections -/

namespace Sysdb

variable {A M : Type}

/-- C11 as stated fails at the nil model: MockGenericClassicModel(nil) leaves
no override, and GenericClassicModel() then returns the predefined model (the
staging one under the staging store), not nil. -/
theorem C11_counterexample_nil_model :
    GenericClassicModel false (MockGenericClassicModel none plainVars).2 = some 1 ∧
    GenericClassicModel true (MockGenericClassicModel none plainVars).2 = some 2 ∧
    ¬ (∀ (mod : Option Nat) (u : Bool) (v : Vars Nat Nat),
        GenericClassicModel u (MockGenericClassicModel mod v).2 = mod) := by
  refine ⟨rfl, rfl, ?_⟩
  intro h
  have h1 := h none false plainVars
  simp [GenericClassicModel, MockGenericClassicModel, plainVars] at h1

/-- C11, amended: for every non-nil model `mod` passed to
MockGenericClassicModel, a subsequent GenericClassicModel() returns `mod`, for
both settings of the staging store and whatever the variables held before. -/
theorem C11_Mock_then_GenericClassicModel (u : Bool) (m : M) (v : Vars A M) :
    GenericClassicModel u (MockGenericClassicModel (some m) v).2 = some m := by
  simp [GenericClassicModel, MockGenericClassicModel]

/-- C15: MockGenericClassicModel(mod) followed by the returned restore leaves
the package-level variables, so the override and the result of
GenericClassicModel(), as before the mock, for every prior override and every
`mod` (nil included); and two nested mocks restored in reverse order give
back the original variables. -/
theorem C15_Mock_restore_round_trip (u : Bool) (mod mod2 : Option M) (v : Vars A M) :
    (MockGenericClassicModel mod v).1 (MockGenericClassicModel mod v).2 = v ∧
    ((MockGenericClassicModel mod v).1
        (MockGenericClassicModel mod v).2).genericClassicModelOverride =
      v.genericClassicModelOverride ∧
    GenericClassicModel u ((MockGenericClassicModel mod v).1 (MockGenericClassicModel mod v).2) =
      GenericClassicModel u v ∧
    (MockGenericClassicModel mod v).1
        ((MockGenericClassicModel mod2 (MockGenericClassicModel mod v).2).1
          (MockGenericClassicModel mod2 (MockGenericClassicModel mod v).2).2) = v := by
  have h1 : (MockGenericClassicModel mod v).1 (MockGenericClassicModel mod v).2 = v := by
    simp [MockGenericClassicModel]
  refine ⟨h1, by rw [h1], by rw [h1], ?_⟩
  simp [MockGenericClassicModel]

/-- C16: after InjectGeneric(a) and then InjectGeneric(b) the extra list is
the original extra list followed by `a` followed by `b` (so `a` followed by
`b` from the empty list the package starts with); the restore of `b` and then
the restore of `a` give back the original variables; the restore of `a` alone
gives back the original extra list as well, dropping the assertions of `b`
too. -/
theorem C16_InjectGeneric_nested [Inhabited A] (a b : List A) (v : Vars A M) :
    (InjectGeneric b (InjectGeneric a v).2).2.genericExtraAssertions =
      v.genericExtraAssertions ++ a ++ b ∧
    (InjectGeneric b
        (InjectGeneric a { v with genericExtraAssertions := [] }).2).2.genericExtraAssertions =
      a ++ b ∧
    ((InjectGeneric b (InjectGeneric a v).2).1
        (InjectGeneric b (InjectGeneric a v).2).2).genericExtraAssertions =
      v.genericExtraAssertions ++ a ∧
    (InjectGeneric a v).1
        ((InjectGeneric b (InjectGeneric a v).2).1 (InjectGeneric b (InjectGeneric a v).2).2) =
      v ∧
    (InjectGeneric a v).1 (InjectGeneric b (InjectGeneric a v).2).2 = v ∧
    ((InjectGeneric a v).1 (InjectGeneric b (InjectGeneric a v).2).2).genericExtraAssertions =
      v.genericExtraAssertions := by
  have ha := InjectGeneric_extra a v
  have hb := InjectGeneric_extra b (InjectGeneric a v).2
  have h0 := InjectGeneric_extra b (InjectGeneric a { v with genericExtraAssertions := [] }).2
  have h00 := InjectGeneric_extra a { v with genericExtraAssertions := [] }
  refine ⟨by rw [hb, ha], by rw [h0, h00]; simp, ?_, ?_, ?_, ?_⟩
  · simp only [InjectGeneric] at ha ⊢
    exact ha
  · simp [InjectGeneric]
  · simp [InjectGeneric]
  · simp [InjectGeneric]

end Sysdb

/-! ## Managers added to a running engine -/

namespace Overlord

variable {St W E : Type}

theorem allNil_append_singleton (f : StateManager St W E → W → Option E × W)
    (ms : List (StateManager St W E)) (m : StateManager St W E) :
    ∀ w : W, allNil f ms w = true → (f m (worldAfter f ms w)).1 = none →
      allNil f (ms ++ [m]) w = true := by
  induction ms with
  | nil => intro w _ hm; simp only [worldAfter] at hm; simp [allNil, hm]
  | cons k ms ih =>
    intro w h hm
    simp only [allNil, Bool.and_eq_true] at h
    simp only [worldAfter] at hm
    simp [allNil, h.1, ih _ h.2 hm]

/-- When the managers of `ms` all return nil, the loop over `ms ++ [m]`
reaches `m`: it makes the calls at positions `i, ..., i + ms.length`. -/
theorem forRange_append_singleton_calls (f : StateManager St W E → W → Option E × W)
    (tag : Nat → Call St) (ms : List (StateManager St W E)) (m : StateManager St W E)
    (i : Nat) (w : W) (h : allNil f ms w = true) :
    (forRange f tag i (ms ++ [m]) w).calls = callsFrom tag i (ms.length + 1) := by
  cases hm : (f m (worldAfter f ms w)).1 with
  | some e => rw [forRange_first_error f tag ms m [] e i w h hm]
  | none =>
    rw [forRange_of_allNil f tag (ms ++ [m]) i w (allNil_append_singleton f ms m w h hm)]
    simp

theorem Stop_of_inited (se : StateEngine St W E) (w : W) (h : se.inited = true) :
    se.Stop w =
      ⟨(forRange (fun m => m.Stop) Call.Stop 0 se.managers w).err,
       (if (forRange (fun m => m.Stop) Call.Stop 0 se.managers w).err.isSome then se
        else { se with inited := false }),
       (forRange (fun m => m.Stop) Call.Stop 0 se.managers w).world,
       (forRange (fun m => m.Stop) Call.Stop 0 se.managers w).calls⟩ := by
  unfold StateEngine.Stop
  simp only [h, if_true]
  split <;> simp_all

theorem mem_callsFrom_last (tag : Nat → Call St) (n : Nat) :
    tag n ∈ callsFrom tag 0 (n + 1) := by
  simp only [callsFrom, List.mem_map, List.mem_range']
  exact ⟨n, ⟨n, by omega, by omega⟩, rfl⟩

/-- C14 as stated fails when an earlier manager's Ensure returns an error: the
manager added to the inited engine is at position 1, and the next
StateEngine.Ensure stops after `Ensure 0`, so its Ensure is not called. -/
theorem C14_counterexample_added_manager_not_reached :
    (ensureFailsEngine.AddManager (countingManager none none none)).managers.length = 2 ∧
    ((ensureFailsEngine.AddManager (countingManager none none none)).Ensure 0).calls =
      [Call.Ensure 0] ∧
    Call.Ensure 1 ∉
      ((ensureFailsEngine.AddManager (countingManager none none none)).Ensure 0).calls := by
  decide

/-- C14, amended: on every engine, inited or not, AddManager puts the manager
at the end of the manager list, keeping the earlier managers, their order,
the state and the inited flag.  On
an inited engine the next StateEngine.Ensure (Stop) calls no Init, and calls
the Ensure (Stop) of the added manager when the Ensure (Stop) of every earlier
manager returns nil; when the Stop of every manager returns nil the flag is
cleared, and the Ensure after that calls the Init of the added manager when
the Init of every earlier manager returns nil. -/
theorem C14_AddManager_appends (se : StateEngine St W E) (m : StateManager St W E) (w : W) :
    (se.AddManager m).managers = se.managers ++ [m] ∧
    (se.AddManager m).inited = se.inited ∧
    (se.AddManager m).state = se.state ∧
    (se.inited = true →
      (∀ i s, Call.Init i s ∉ ((se.AddManager m).Ensure w).calls) ∧
      (∀ i s, Call.Init i s ∉ ((se.AddManager m).Stop w).calls) ∧
      (allNil (fun k => k.Ensure) se.managers w = true →
        ((se.AddManager m).Ensure w).calls = callsFrom Call.Ensure 0 (se.managers.length + 1) ∧
        Call.Ensure se.managers.length ∈ ((se.AddManager m).Ensure w).calls) ∧
      (allNil (fun k => k.Stop) se.managers w = true →
        ((se.AddManager m).Stop w).calls = callsFrom Call.Stop 0 (se.managers.length + 1) ∧
        Call.Stop se.managers.length ∈ ((se.AddManager m).Stop w).calls) ∧
      (allNil (fun k => k.Stop) (se.managers ++ [m]) w = true →
        ((se.AddManager m).Stop w).engine.inited = false ∧
        ((se.AddManager m).Stop w).engine.managers = se.managers ++ [m] ∧
        ∀ w1, allNil (fun k => k.Init se.state) se.managers w1 = true →
          Call.Init se.managers.length se.state ∈
            (((se.AddManager m).Stop w).engine.Ensure w1).calls)) := by
  refine ⟨rfl, rfl, rfl, ?_⟩
  intro h
  have hi : (se.AddManager m).inited = true := h
  have hm : (se.AddManager m).managers = se.managers ++ [m] := rfl
  have hE := Ensure_of_inited (se.AddManager m) w hi
  have hS := Stop_of_inited (se.AddManager m) w hi
  rw [hm] at hE hS
  refine ⟨?_, ?_, ?_, ?_, ?_⟩
  · intro i s
    obtain ⟨k, _, _, hc⟩ := forRange_calls_initial (fun k : StateManager St W E => k.Ensure)
      Call.Ensure (se.managers ++ [m]) 0 w
    rw [hE]
    simp only [hc]
    exact no_Init_in_callsFrom_Ensure 0 k i s
  · intro i s
    obtain ⟨k, _, _, hc⟩ := forRange_calls_initial (fun k : StateManager St W E => k.Stop)
      Call.Stop (se.managers ++ [m]) 0 w
    rw [hS]
    simp only [hc]
    simp [callsFrom]
  · intro hall
    have hc := forRange_append_singleton_calls (fun k : StateManager St W E => k.Ensure)
      Call.Ensure se.managers m 0 w hall
    rw [hE]
    refine ⟨hc, ?_⟩
    show _ ∈ (forRange (fun k => k.Ensure) Call.Ensure 0 (se.managers ++ [m]) w).calls
    rw [hc]
    exact mem_callsFrom_last Call.Ensure se.managers.length
  · intro hall
    have hc := forRange_append_singleton_calls (fun k : StateManager St W E => k.Stop)
      Call.Stop se.managers m 0 w hall
    rw [hS]
    refine ⟨hc, ?_⟩
    show _ ∈ (forRange (fun k => k.Stop) Call.Stop 0 (se.managers ++ [m]) w).calls
    rw [hc]
    exact mem_callsFrom_last Call.Stop se.managers.length
  · intro hall
    have hstop := Stop_of_inited_allNil (se.AddManager m) w hi hall
    rw [hstop]
    refine ⟨rfl, rfl, ?_⟩
    intro w1 hinit
    have hc := forRange_append_singleton_calls (fun k : StateManager St W E => k.Init se.state)
      (fun i => Call.Init i se.state) se.managers m 0 w1 hinit
    have hmem := mem_callsFrom_last (fun i => Call.Init i se.state) se.managers.length
    rw [← hc] at hmem
    cases he : (forRange (fun k : StateManager St W E => k.Init se.state)
        (fun i => Call.Init i se.state) 0 (se.managers ++ [m]) w1).err with
    | some e =>
      rw [Ensure_of_init_error _ w1 e rfl he]
      exact hmem
    | none =>
      rw [Ensure_of_init_ok _ w1 rfl he]
      exact List.mem_append_left _ hmem

/-- C14 at concrete engines: a manager added to an engine that is not inited,
and one added to an inited engine with one healthy manager. -/
theorem C14_witness :
    ((healthyEngine.AddManager (countingManager none none none)).managers.length = 3 ∧
      (healthyEngine.AddManager (countingManager none none none)).inited = false) ∧
    runningEngine.inited = true ∧
    ((runningEngine.AddManager (countingManager none none none)).Ensure 0).calls =
      [Call.Ensure 0, Call.Ensure 1] ∧
    ((runningEngine.AddManager (countingManager none none none)).Stop 0).calls =
      [Call.Stop 0, Call.Stop 1] ∧
    Call.Init 1 () ∈
      (((runningEngine.AddManager (countingManager none none none)).Stop 0).engine.Ensure 2).calls :=
  have h0 := C14_AddManager_appends healthyEngine (countingManager none none none) 0
  have h := (C14_AddManager_appends runningEngine (countingManager none none none) 0).2.2.2 rfl
  ⟨⟨congrArg List.length h0.1, h0.2.1⟩,
   rfl, (h.2.2.1 rfl).1, (h.2.2.2.1 rfl).1, (h.2.2.2.2 rfl).2.2 2 rfl⟩

end Overlord

/-! ## Seed helpers: the snap type of a model snap -/

namespace Seed

/-- C17: snapTypeFromModel returns a value for every type string: "base"
gives TypeBase, "core" gives TypeOS, "gadget" gives TypeGadget, "kernel" gives
TypeKernel, "snapd" gives TypeSnapd, and every other string, the empty string
and "app" among them, gives TypeApp. -/
theorem C17_snapTypeFromModel_table {T : Type} (snap : SnapTypes T) :
    snapTypeFromModel snap ⟨"base"⟩ = snap.TypeBase ∧
    snapTypeFromModel snap ⟨"core"⟩ = snap.TypeOS ∧
    snapTypeFromModel snap ⟨"gadget"⟩ = snap.TypeGadget ∧
    snapTypeFromModel snap ⟨"kernel"⟩ = snap.TypeKernel ∧
    snapTypeFromModel snap ⟨"snapd"⟩ = snap.TypeSnapd ∧
    snapTypeFromModel snap ⟨""⟩ = snap.TypeApp ∧
    snapTypeFromModel snap ⟨"app"⟩ = snap.TypeApp ∧
    (∀ s : String, s ≠ "base" → s ≠ "core" → s ≠ "gadget" → s ≠ "kernel" → s ≠ "snapd" →
      snapTypeFromModel snap ⟨s⟩ = snap.TypeApp) := by
  refine ⟨?_, ?_, ?_, ?_, ?_, ?_, ?_, ?_⟩
  · simp [snapTypeFromModel]
  · simp [snapTypeFromModel]
  · simp [snapTypeFromModel]
  · simp [snapTypeFromModel]
  · simp [snapTypeFromModel]
  · simp [snapTypeFromModel]
  · simp [snapTypeFromModel]
  · intro s h1 h2 h3 h4 h5
    simp [snapTypeFromModel, h1, h2, h3, h4, h5]

/-- C17 at concrete type strings: "core" is the one string mapped to another
name, and "os" falls to the default. -/
theorem C17_witness :
    snapTypeFromModel numberedTypes ⟨"core"⟩ = 4 ∧
    snapTypeFromModel numberedTypes ⟨"os"⟩ = 0 :=
  ⟨(C17_snapTypeFromModel_table numberedTypes).2.1,
   (C17_snapTypeFromModel_table numberedTypes).2.2.2.2.2.2.2 "os"
     (by decide) (by decide) (by decide) (by decide) (by decide)⟩

end Seed

/-! ## Quota groups -/

namespace Servicestate

theorem withoutSnap_not_mem (snap : String) (g : QuotaGroup) :
    snap ∉ (withoutSnap snap g).Snaps := by
  simp [withoutSnap]

theorem withoutSnap_of_not_mem (snap : String) (g : QuotaGroup) (h : snap ∉ g.Snaps) :
    withoutSnap snap g = g := by
  have hf : g.Snaps.filter (fun sn => decide (sn ≠ snap)) = g.Snaps := by
    rw [List.filter_eq_self]
    intro sn hsn
    have : sn ≠ snap := fun hh => h (hh ▸ hsn)
    simpa using this
  cases g
  simp only [withoutSnap] at hf ⊢
  rw [hf]

theorem inSomeQuota_eq_false_iff (st : State) (snap : String) :
    inSomeQuota st snap = false ↔ ∀ g ∈ st.quotas, snap ∉ g.Snaps := by
  simp [inSomeQuota]

theorem map_withoutSnap_of_absent (snap : String) (qs : List QuotaGroup)
    (h : ∀ g ∈ qs, snap ∉ g.Snaps) : qs.map (withoutSnap snap) = qs := by
  induction qs with
  | nil => rfl
  | cons g qs ih =>
    simp only [List.map_cons]
    rw [withoutSnap_of_not_mem snap g (h g (List.mem_cons_self _ _)),
      ih (fun k hk => h k (List.mem_cons_of_mem _ hk))]

theorem EnsureSnapAbsentFromQuota_quotas (st : State) (snap : String) :
    (EnsureSnapAbsentFromQuota st snap).2.quotas = st.quotas.map (withoutSnap snap) := by
  unfold EnsureSnapAbsentFromQuota
  cases h : inSomeQuota st snap with
  | true => simp
  | false =>
    simp only [Bool.false_eq_true, if_false]
    exact (map_withoutSnap_of_absent snap st.quotas ((inSomeQuota_eq_false_iff st snap).mp h)).symm

theorem EnsureSnapAbsentFromQuota_absent (st : State) (snap : String) :
    inSomeQuota (EnsureSnapAbsentFromQuota st snap).2 snap = false := by
  rw [inSomeQuota_eq_false_iff, EnsureSnapAbsentFromQuota_quotas]
  intro g hg
  obtain ⟨k, _, rfl⟩ := List.mem_map.mp hg
  exact withoutSnap_not_mem snap k

/-- C12: for every state and snap name EnsureSnapAbsentFromQuota returns no
error and leaves every quota group as it was except that the snap is gone
from its member list (names, memory limits, parents, sub-groups and the other
members in their order are kept), so afterwards the snap is in no group; a
second identical call returns no error and leaves the state, Tasks included,
exactly as the first call left it; and for a snap that is in no quota group
the call returns no error and changes nothing. -/
theorem C12_EnsureSnapAbsentFromQuota_idempotent (st : State) (snap : String) :
    (EnsureSnapAbsentFromQuota st snap).1 = none ∧
    (EnsureSnapAbsentFromQuota st snap).2.quotas = st.quotas.map (withoutSnap snap) ∧
    (∀ g ∈ (EnsureSnapAbsentFromQuota st snap).2.quotas, snap ∉ g.Snaps) ∧
    (EnsureSnapAbsentFromQuota st snap).2.quotas.map (fun g => g.Name) =
      st.quotas.map (fun g => g.Name) ∧
    (EnsureSnapAbsentFromQuota st snap).2.quotas.map (fun g => g.MemoryLimit) =
      st.quotas.map (fun g => g.MemoryLimit) ∧
    (EnsureSnapAbsentFromQuota st snap).2.quotas.map (fun g => g.Snaps) =
      st.quotas.map (fun g => g.Snaps.filter (fun sn => sn ≠ snap)) ∧
    EnsureSnapAbsentFromQuota (EnsureSnapAbsentFromQuota st snap).2 snap =
      (none, (EnsureSnapAbsentFromQuota st snap).2) ∧
    ((∀ g ∈ st.quotas, snap ∉ g.Snaps) → EnsureSnapAbsentFromQuota st snap = (none, st)) := by
  have hq := EnsureSnapAbsentFromQuota_quotas st snap
  have habs := EnsureSnapAbsentFromQuota_absent st snap
  refine ⟨?_, hq, ?_, ?_, ?_, ?_, ?_, ?_⟩
  · unfold EnsureSnapAbsentFromQuota
    split <;> rfl
  · exact (inSomeQuota_eq_false_iff _ snap).mp habs
  · rw [hq, List.map_map]
    rfl
  · rw [hq, List.map_map]
    rfl
  · rw [hq, List.map_map]
    rfl
  · generalize EnsureSnapAbsentFromQuota st snap = r at habs
    unfold EnsureSnapAbsentFromQuota
    simp [habs]
  · intro h
    unfold EnsureSnapAbsentFromQuota
    simp [(inSomeQuota_eq_false_iff st snap).mpr h]

/-- C12 at the state of the test: "test-snap" leaves group "foo", whose limit
and other member stay; the second call changes nothing; an unknown snap is no
error. -/
theorem C12_witness :
    (EnsureSnapAbsentFromQuota twoMembers "test-snap").2.quotas.map (fun g => g.Snaps) =
      [["test-snap2"]] ∧
    (EnsureSnapAbsentFromQuota twoMembers "test-snap").2.quotas.map (fun g => g.MemoryLimit) =
      [SizeGiB] ∧
    EnsureSnapAbsentFromQuota (EnsureSnapAbsentFromQuota twoMembers "test-snap").2 "test-snap" =
      (none, (EnsureSnapAbsentFromQuota twoMembers "test-snap").2) ∧
    EnsureSnapAbsentFromQuota twoMembers "test-snap33333" = (none, twoMembers) :=
  ⟨(C12_EnsureSnapAbsentFromQuota_idempotent twoMembers "test-snap").2.2.2.2.2.1,
   (C12_EnsureSnapAbsentFromQuota_idempotent twoMembers "test-snap").2.2.2.2.1,
   (C12_EnsureSnapAbsentFromQuota_idempotent twoMembers "test-snap").2.2.2.2.2.2.1,
   (C12_EnsureSnapAbsentFromQuota_idempotent twoMembers "test-snap33333").2.2.2.2.2.2.2
     (by decide)⟩

theorem any_name_of_exists (qs : List QuotaGroup) (name : String)
    (h : ∃ g ∈ qs, g.Name = name) : qs.any (fun g => decide (g.Name = name)) = true := by
  obtain ⟨g, hg, hn⟩ := h
  simp only [List.any_eq_true, decide_eq_true_eq]
  exact ⟨g, hg, hn⟩

theorem UpdateQuota_of_exists (st : State) (name : String) (limit : Nat)
    (h : ∃ g ∈ st.quotas, g.Name = name) :
    UpdateQuota st name limit =
      (none, { quotas := st.quotas.map (withLimit name limit),
               tasks := st.tasks ++ [⟨"update-slice", name⟩] }) := by
  unfold UpdateQuota
  rw [if_pos (any_name_of_exists st.quotas name h)]

theorem withLimit_Name (name : String) (limit : Nat) (g : QuotaGroup) :
    (withLimit name limit g).Name = g.Name := by
  unfold withLimit
  split <;> rfl

theorem withLimit_Snaps (name : String) (limit : Nat) (g : QuotaGroup) :
    (withLimit name limit g).Snaps = g.Snaps := by
  unfold withLimit
  split <;> rfl

theorem withLimit_ParentGroup (name : String) (limit : Nat) (g : QuotaGroup) :
    (withLimit name limit g).ParentGroup = g.ParentGroup := by
  unfold withLimit
  split <;> rfl

theorem withLimit_SubGroups (name : String) (limit : Nat) (g : QuotaGroup) :
    (withLimit name limit g).SubGroups = g.SubGroups := by
  unfold withLimit
  split <;> rfl

theorem withLimit_MemoryLimit (name : String) (limit : Nat) (g : QuotaGroup) :
    (withLimit name limit g).MemoryLimit = if g.Name = name then limit else g.MemoryLimit := by
  unfold withLimit
  split <;> rfl

/-- C13 as stated fails in two ways.  With a second group "bar" in the state,
UpdateQuota of "foo" succeeds and the RemoveQuota of "foo" after it succeeds,
but "bar" is still in the state.  And while preseeding, RemoveQuota of the
only group "foo" is refused and the group stays. -/
theorem C13_counterexample_group_left :
    ((UpdateQuota twoGroups "foo" (2 * SizeGiB)).1 = none ∧
      (RemoveQuota false (UpdateQuota twoGroups "foo" (2 * SizeGiB)).2 "foo").1 = none ∧
      (RemoveQuota false (UpdateQuota twoGroups "foo" (2 * SizeGiB)).2 "foo").2.quotas.map
        (fun g => g.Name) = ["bar"] ∧
      (RemoveQuota false (UpdateQuota twoGroups "foo" (2 * SizeGiB)).2 "foo").2.quotas ≠ []) ∧
    ((UpdateQuota scenarioA "foo" (2 * SizeGiB)).1 = none ∧
      (RemoveQuota true (UpdateQuota scenarioA "foo" (2 * SizeGiB)).2 "foo").1 =
        some QuotaError.preseeding ∧
      (RemoveQuota true (UpdateQuota scenarioA "foo" (2 * SizeGiB)).2 "foo").2.quotas.map
        (fun g => g.Name) = ["foo"] ∧
      (RemoveQuota true (UpdateQuota scenarioA "foo" (2 * SizeGiB)).2 "foo").2.quotas ≠ []) := by
  decide

/-- C13, amended: for every state with a quota group of the given name,
UpdateQuota with a new memory limit returns no error and enqueues the one Task
"update-slice"; the groups keep their names (so the set of groups), member
snaps, parents and sub-groups; the named group has the new limit and every
other group its old one.  A RemoveQuota of that group afterwards, when not
preseeding, returns no error and removes that group and no other, so it
leaves no quota group when the state held only that one; while preseeding it
is refused and leaves the state as it was. -/
theorem C13_UpdateQuota_changes_only_limit (st : State) (name : String) (limit : Nat)
    (h : ∃ g ∈ st.quotas, g.Name = name) :
    (UpdateQuota st name limit).1 = none ∧
    (UpdateQuota st name limit).2.tasks = st.tasks ++ [⟨"update-slice", name⟩] ∧
    (UpdateQuota st name limit).2.quotas.map (fun g => g.Name) =
      st.quotas.map (fun g => g.Name) ∧
    (UpdateQuota st name limit).2.quotas.map (fun g => g.Snaps) =
      st.quotas.map (fun g => g.Snaps) ∧
    (UpdateQuota st name limit).2.quotas.map (fun g => g.ParentGroup) =
      st.quotas.map (fun g => g.ParentGroup) ∧
    (UpdateQuota st name limit).2.quotas.map (fun g => g.SubGroups) =
      st.quotas.map (fun g => g.SubGroups) ∧
    (UpdateQuota st name limit).2.quotas.map (fun g => g.MemoryLimit) =
      st.quotas.map (fun g => if g.Name = name then limit else g.MemoryLimit) ∧
    (RemoveQuota false (UpdateQuota st name limit).2 name).1 = none ∧
    (RemoveQuota false (UpdateQuota st name limit).2 name).2.quotas =
      st.quotas.filter (fun g => g.Name ≠ name) ∧
    (∀ g ∈ (RemoveQuota false (UpdateQuota st name limit).2 name).2.quotas, g.Name ≠ name) ∧
    ((∀ g ∈ st.quotas, g.Name = name) →
      (RemoveQuota false (UpdateQuota st name limit).2 name).2.quotas = []) ∧
    RemoveQuota true (UpdateQuota st name limit).2 name =
      (some QuotaError.preseeding, (UpdateQuota st name limit).2) ∧
    (∀ (st1 : State) (nm : String),
      RemoveQuota true st1 nm = (some QuotaError.preseeding, st1)) := by
  have hU := UpdateQuota_of_exists st name limit h
  have hex : ∃ g ∈ (UpdateQuota st name limit).2.quotas, g.Name = name := by
    obtain ⟨g, hg, hn⟩ := h
    rw [hU]
    exact ⟨withLimit name limit g, List.mem_map_of_mem _ hg, by rw [withLimit_Name, hn]⟩
  have hR : RemoveQuota false (UpdateQuota st name limit).2 name =
      (none, { (UpdateQuota st name limit).2 with
        quotas := (UpdateQuota st name limit).2.quotas.filter (fun g => g.Name ≠ name) }) := by
    unfold RemoveQuota
    rw [if_neg Bool.false_ne_true, if_pos (any_name_of_exists _ name hex)]
  have hfilter : (st.quotas.map (withLimit name limit)).filter (fun g => g.Name ≠ name) =
      st.quotas.filter (fun g => g.Name ≠ name) := by
    induction st.quotas with
    | nil => rfl
    | cons g qs ih =>
      by_cases hg : g.Name = name
      · simp only [List.map_cons, List.filter_cons, withLimit_Name, hg, ne_eq, not_true_eq_false,
          decide_False, Bool.false_eq_true, if_false]
        exact ih
      · have hw : withLimit name limit g = g := by simp [withLimit, hg]
        simp only [List.map_cons, List.filter_cons, hw, hg, ne_eq, not_false_eq_true,
          decide_True, if_true]
        rw [ih]
  have hrem : (RemoveQuota false (UpdateQuota st name limit).2 name).2.quotas =
      st.quotas.filter (fun g => g.Name ≠ name) := by
    rw [hR, hU]
    exact hfilter
  refine ⟨by rw [hU], by rw [hU], ?_, ?_, ?_, ?_, ?_, by rw [hR], hrem, ?_, ?_, ?_, ?_⟩
  · rw [hU]
    simp [List.map_map, Function.comp_def, withLimit_Name]
  · rw [hU]
    simp [List.map_map, Function.comp_def, withLimit_Snaps]
  · rw [hU]
    simp [List.map_map, Function.comp_def, withLimit_ParentGroup]
  · rw [hU]
    simp [List.map_map, Function.comp_def, withLimit_SubGroups]
  · rw [hU]
    simp [List.map_map, Function.comp_def, withLimit_MemoryLimit]
  · intro g hg
    rw [hrem] at hg
    simpa using (List.mem_filter.mp hg).2
  · intro hall
    rw [hrem, List.filter_eq_nil_iff]
    intro g hg
    simp [hall g hg]
  · unfold RemoveQuota
    rw [if_pos rfl]
  · intro st1 nm
    unfold RemoveQuota
    rw [if_pos rfl]

/-- C13 at the scenario of the spec and the test: group "foo", created with
1 GiB and the member "test-snap", has the limit 2 GiB and the same member
after the update, and the RemoveQuota after it, not preseeding, leaves no
quota group. -/
theorem C13_witness :
    (∃ g ∈ scenarioA.quotas, g.Name = "foo") ∧
    (UpdateQuota scenarioA "foo" (2 * SizeGiB)).1 = none ∧
    (UpdateQuota scenarioA "foo" (2 * SizeGiB)).2.quotas.map (fun g => g.MemoryLimit) =
      [2 * SizeGiB] ∧
    (UpdateQuota scenarioA "foo" (2 * SizeGiB)).2.quotas.map (fun g => g.Snaps) =
      [["test-snap"]] ∧
    (RemoveQuota false (UpdateQuota scenarioA "foo" (2 * SizeGiB)).2 "foo").1 = none ∧
    (RemoveQuota false (UpdateQuota scenarioA "foo" (2 * SizeGiB)).2 "foo").2.quotas = [] :=
  have hex : ∃ g ∈ scenarioA.quotas, g.Name = "foo" :=
    ⟨_, List.mem_cons_self _ _, rfl⟩
  have h := C13_UpdateQuota_changes_only_limit scenarioA "foo" (2 * SizeGiB) hex
  ⟨hex, h.1, h.2.2.2.2.2.2.1, h.2.2.2.1, h.2.2.2.2.2.2.2.1,
   h.2.2.2.2.2.2.2.2.2.2.1 (by decide)⟩

end Servicestate

/-! ## Seed helpers: loading the assertions directory -/

namespace Seed

variable {Err File Batch Ref W : Type}

theorem callLoaded_of_allNil (f : Ref → W → Option Err × W) (refs : List Ref) :
    ∀ w : W, loadedAllNil f refs w = true →
      callLoaded f refs w = (none, loadedWorldAfter f refs w, refs) := by
  induction refs with
  | nil => intro w _; rfl
  | cons ref refs ih =>
    intro w h
    simp only [loadedAllNil, Bool.and_eq_true] at h
    have hf : f ref w = (none, (f ref w).2) := by
      cases hfm : f ref w with
      | mk a b =>
        have h1 := h.1
        rw [hfm] at h1
        cases a with
        | none => rfl
        | some e => simp at h1
    rw [callLoaded, hf]
    simp only
    rw [ih _ h.2]
    simp [loadedWorldAfter]

theorem callLoaded_first_error (f : Ref → W → Option Err × W) (rpre : List Ref) (ref : Ref)
    (rpost : List Ref) (e : Err) :
    ∀ w : W, loadedAllNil f rpre w = true → (f ref (loadedWorldAfter f rpre w)).1 = some e →
      callLoaded f (rpre ++ ref :: rpost) w =
        (some e, (f ref (loadedWorldAfter f rpre w)).2, rpre ++ [ref]) := by
  induction rpre with
  | nil =>
    intro w _ hk
    simp only [loadedWorldAfter] at hk
    have hf : f ref w = (some e, (f ref w).2) := by
      cases hfm : f ref w with
      | mk a b => rw [hfm] at hk; simp at hk; simp [hk]
    rw [List.nil_append, callLoaded, hf]
    simp [loadedWorldAfter]
  | cons p rpre ih =>
    intro w h hk
    simp only [loadedAllNil, Bool.and_eq_true] at h
    have hf : f p w = (none, (f p w).2) := by
      cases hfm : f p w with
      | mk a b =>
        have h1 := h.1
        rw [hfm] at h1
        cases a with
        | none => rfl
        | some e => simp at h1
    simp only [loadedWorldAfter] at hk
    rw [List.cons_append, callLoaded, hf]
    simp only
    rw [ih _ h.2 hk]
    simp [loadedWorldAfter]

theorem loadedAllNil_append (f : Ref → W → Option Err × W) (xs ys : List Ref) :
    ∀ w : W, loadedAllNil f (xs ++ ys) w =
      (loadedAllNil f xs w && loadedAllNil f ys (loadedWorldAfter f xs w)) := by
  induction xs with
  | nil => intro w; simp [loadedAllNil, loadedWorldAfter]
  | cons x xs ih => intro w; simp [loadedAllNil, loadedWorldAfter, ih, Bool.and_assoc]

theorem loadedWorldAfter_append (f : Ref → W → Option Err × W) (xs ys : List Ref) :
    ∀ w : W, loadedWorldAfter f (xs ++ ys) w =
      loadedWorldAfter f ys (loadedWorldAfter f xs w) := by
  induction xs with
  | nil => intro w; rfl
  | cons x xs ih => intro w; simp [loadedWorldAfter, ih]

theorem loadLoop_cons_read_error (d : Deps Err File Batch Ref) (dir : String)
    (lf : Option (Ref → W → Option Err × W)) (name : String) (dc : List String)
    (b : Batch) (w : W) (e : Err) (h : (readAsserts d b (d.Join dir name)).1 = .error e) :
    loadLoop d dir lf (name :: dc) b w =
      ⟨none, some (d.Errorf ("cannot read assertions: " ++ d.Error e)), w,
       [d.Join dir name], []⟩ := by
  rw [loadLoop]
  cases hr : readAsserts d b (d.Join dir name) with
  | mk a b1 =>
    rw [hr] at h
    simp only at h
    subst h
    rfl

theorem loadLoop_cons_read_ok (d : Deps Err File Batch Ref) (dir : String)
    (lf : Option (Ref → W → Option Err × W)) (name : String) (dc : List String)
    (b b1 : Batch) (w : W) (refs : List Ref)
    (h : readAsserts d b (d.Join dir name) = (.ok refs, b1))
    (hok : optAllNil lf refs w = true) :
    loadLoop d dir lf (name :: dc) b w =
      ⟨(loadLoop d dir lf dc b1 (optWorldAfter lf refs w)).batch,
       (loadLoop d dir lf dc b1 (optWorldAfter lf refs w)).err,
       (loadLoop d dir lf dc b1 (optWorldAfter lf refs w)).world,
       d.Join dir name :: (loadLoop d dir lf dc b1 (optWorldAfter lf refs w)).opened,
       optLoaded lf refs ++ (loadLoop d dir lf dc b1 (optWorldAfter lf refs w)).loaded⟩ := by
  rw [loadLoop, h]
  cases lf with
  | none => simp [optWorldAfter, optLoaded]
  | some f =>
    simp only [optAllNil] at hok
    simp only [callLoaded_of_allNil f refs w hok, optWorldAfter, optLoaded]

theorem loadLoop_cons_loaded_error (d : Deps Err File Batch Ref) (dir : String)
    (f : Ref → W → Option Err × W) (name : String) (dc : List String)
    (b b1 : Batch) (w : W) (rpre : List Ref) (ref : Ref) (rpost : List Ref) (e : Err)
    (h : readAsserts d b (d.Join dir name) = (.ok (rpre ++ ref :: rpost), b1))
    (hpre : loadedAllNil f rpre w = true)
    (hk : (f ref (loadedWorldAfter f rpre w)).1 = some e) :
    loadLoop d dir (some f) (name :: dc) b w =
      ⟨none, some e, (f ref (loadedWorldAfter f rpre w)).2, [d.Join dir name],
       rpre ++ [ref]⟩ := by
  rw [loadLoop, h]
  simp only [callLoaded_first_error f rpre ref rpost e w hpre hk]

theorem optAllNil_append (lf : Option (Ref → W → Option Err × W)) (xs ys : List Ref) (w : W) :
    optAllNil lf (xs ++ ys) w = (optAllNil lf xs w && optAllNil lf ys (optWorldAfter lf xs w)) := by
  cases lf with
  | none => rfl
  | some f => exact loadedAllNil_append f xs ys w

theorem optWorldAfter_append (lf : Option (Ref → W → Option Err × W)) (xs ys : List Ref) (w : W) :
    optWorldAfter lf (xs ++ ys) w = optWorldAfter lf ys (optWorldAfter lf xs w) := by
  cases lf with
  | none => rfl
  | some f => exact loadedWorldAfter_append f xs ys w

theorem optLoaded_append (lf : Option (Ref → W → Option Err × W)) (xs ys : List Ref) :
    optLoaded lf (xs ++ ys) = optLoaded lf xs ++ optLoaded lf ys := by
  cases lf with
  | none => rfl
  | some f => rfl

/-- When the files of `pre` can all be read and `loadedFunc` returns nil on
all their references, the loop over `pre ++ rest` goes on with `rest` from
the batch and world reached. -/
theorem loadLoop_append (d : Deps Err File Batch Ref) (dir : String)
    (lf : Option (Ref → W → Option Err × W)) (pre rest : List String) :
    ∀ (b b1 : Batch) (w : W) (rss : List (List Ref)),
      readAll d dir pre b = some (rss, b1) → optAllNil lf rss.flatten w = true →
      loadLoop d dir lf (pre ++ rest) b w =
        ⟨(loadLoop d dir lf rest b1 (optWorldAfter lf rss.flatten w)).batch,
         (loadLoop d dir lf rest b1 (optWorldAfter lf rss.flatten w)).err,
         (loadLoop d dir lf rest b1 (optWorldAfter lf rss.flatten w)).world,
         pre.map (d.Join dir) ++ (loadLoop d dir lf rest b1 (optWorldAfter lf rss.flatten w)).opened,
         optLoaded lf rss.flatten ++
           (loadLoop d dir lf rest b1 (optWorldAfter lf rss.flatten w)).loaded⟩ := by
  induction pre with
  | nil =>
    intro b b1 w rss hr _
    simp only [readAll, Option.some.injEq, Prod.mk.injEq] at hr
    obtain ⟨rfl, rfl⟩ := hr
    have h1 : optWorldAfter lf ([] : List (List Ref)).flatten w = w := by cases lf <;> rfl
    have h2 : optLoaded lf ([] : List (List Ref)).flatten = [] := by cases lf <;> rfl
    rw [h1, h2]
    rfl
  | cons n pre ih =>
    intro b b1 w rss hr hok
    rw [readAll] at hr
    cases hra : readAsserts d b (d.Join dir n) with
    | mk res b2 =>
      rw [hra] at hr
      cases res with
      | error e => simp at hr
      | ok refs =>
        simp only at hr
        cases hrest : readAll d dir pre b2 with
        | none => rw [hrest] at hr; simp at hr
        | some p =>
          obtain ⟨rss1, b3⟩ := p
          rw [hrest] at hr
          simp only [Option.some.injEq, Prod.mk.injEq] at hr
          obtain ⟨rfl, rfl⟩ := hr
          rw [List.flatten_cons, optAllNil_append, Bool.and_eq_true] at hok
          rw [List.cons_append, loadLoop_cons_read_ok d dir lf n (pre ++ rest) b b2 w refs hra hok.1,
            ih b2 b3 (optWorldAfter lf refs w) rss1 hrest hok.2]
          simp [optWorldAfter_append, optLoaded_append]

/-- The loop returns either no batch and an error, or a batch and no error. -/
theorem loadLoop_batch_xor_err (d : Deps Err File Batch Ref) (dir : String)
    (lf : Option (Ref → W → Option Err × W)) (dc : List String) :
    ∀ (b : Batch) (w : W),
      ((loadLoop d dir lf dc b w).batch = none ∧ (loadLoop d dir lf dc b w).err.isSome = true) ∨
      ((loadLoop d dir lf dc b w).batch.isSome = true ∧ (loadLoop d dir lf dc b w).err = none) := by
  induction dc with
  | nil => intro b w; right; exact ⟨rfl, rfl⟩
  | cons n dc ih =>
    intro b w
    rw [loadLoop]
    cases hra : readAsserts d b (d.Join dir n) with
    | mk res b2 =>
      cases res with
      | error e => left; exact ⟨rfl, rfl⟩
      | ok refs =>
        cases lf with
        | none => exact ih b2 w
        | some f =>
          simp only
          cases hc : callLoaded f refs w with
          | mk a rest =>
            obtain ⟨w1, called⟩ := rest
            cases a with
            | some e => left; exact ⟨rfl, rfl⟩
            | none => exact ih b2 w1

theorem loadAssertions_of_ReadDir_ok (d : Deps Err File Batch Ref) (dir : String)
    (lf : Option (Ref → W → Option Err × W)) (w : W) (dc : List String)
    (h : d.ReadDir dir = .ok dc) :
    loadAssertions d dir lf w = loadLoop d dir lf dc d.NewBatch w := by
  unfold loadAssertions
  rw [h]

/-- C18: loadAssertions always returns, with either a nil batch and an error
or a non-nil batch and a nil error.  A directory read error for which
`os.IsNotExist` holds gives exactly ErrNoAssertions, any other one the error
"cannot read assertions dir: " followed by its text.  When the files before
`name` are read and `loadedFunc` returns nil on all their references: a read
error on `name` gives "cannot read assertions: " followed by its text, with no
later file opened; and the first error `loadedFunc` returns, on a reference of
`name`, is returned as it is, with no later reference or file processed.
When nothing fails (every file is read and, for a non-nil `loadedFunc`, every
call returns nil) the batch built from all the files is returned with a nil
error: a nil `loadedFunc` is not called, and a non-nil one has been called on
exactly the references read, file by file in directory order and in stream
order within a file. -/
theorem C18_loadAssertions_outcomes (d : Deps Err File Batch Ref) (dir : String)
    (lf : Option (Ref → W → Option Err × W)) (w : W) :
    (((loadAssertions d dir lf w).batch = none ∧ (loadAssertions d dir lf w).err.isSome = true) ∨
      ((loadAssertions d dir lf w).batch.isSome = true ∧ (loadAssertions d dir lf w).err = none)) ∧
    (∀ e, d.ReadDir dir = .error e → d.IsNotExist e = true →
      (loadAssertions d dir lf w).batch = none ∧
      (loadAssertions d dir lf w).err = some d.ErrNoAssertions ∧
      (loadAssertions d dir lf w).opened = [] ∧ (loadAssertions d dir lf w).loaded = []) ∧
    (∀ e, d.ReadDir dir = .error e → d.IsNotExist e = false →
      (loadAssertions d dir lf w).batch = none ∧
      (loadAssertions d dir lf w).err =
        some (d.Errorf ("cannot read assertions dir: " ++ d.Error e)) ∧
      (loadAssertions d dir lf w).opened = [] ∧ (loadAssertions d dir lf w).loaded = []) ∧
    (∀ pre name post rss b1 e, d.ReadDir dir = .ok (pre ++ name :: post) →
      readAll d dir pre d.NewBatch = some (rss, b1) →
      optAllNil lf rss.flatten w = true →
      (readAsserts d b1 (d.Join dir name)).1 = .error e →
        (loadAssertions d dir lf w).batch = none ∧
        (loadAssertions d dir lf w).err =
          some (d.Errorf ("cannot read assertions: " ++ d.Error e)) ∧
        (loadAssertions d dir lf w).opened = (pre ++ [name]).map (d.Join dir) ∧
        (loadAssertions d dir lf w).loaded = optLoaded lf rss.flatten) ∧
    (∀ f pre name post rss b1 b2 rpre ref rpost e, lf = some f →
      d.ReadDir dir = .ok (pre ++ name :: post) →
      readAll d dir pre d.NewBatch = some (rss, b1) →
      loadedAllNil f rss.flatten w = true →
      readAsserts d b1 (d.Join dir name) = (.ok (rpre ++ ref :: rpost), b2) →
      loadedAllNil f rpre (loadedWorldAfter f rss.flatten w) = true →
      (f ref (loadedWorldAfter f rpre (loadedWorldAfter f rss.flatten w))).1 = some e →
        (loadAssertions d dir lf w).batch = none ∧
        (loadAssertions d dir lf w).err = some e ∧
        (loadAssertions d dir lf w).opened = (pre ++ [name]).map (d.Join dir) ∧
        (loadAssertions d dir lf w).loaded = rss.flatten ++ rpre ++ [ref]) ∧
    (∀ dc rss bf, d.ReadDir dir = .ok dc →
      readAll d dir dc d.NewBatch = some (rss, bf) →
      optAllNil lf rss.flatten w = true →
        (loadAssertions d dir lf w).batch = some bf ∧
        (loadAssertions d dir lf w).err = none ∧
        (loadAssertions d dir lf w).opened = dc.map (d.Join dir) ∧
        (loadAssertions d dir lf w).loaded = optLoaded lf rss.flatten ∧
        (loadAssertions d dir lf w).world = optWorldAfter lf rss.flatten w) ∧
    (∀ dc rss bf, lf = none → d.ReadDir dir = .ok dc →
      readAll d dir dc d.NewBatch = some (rss, bf) →
        (loadAssertions d dir lf w).batch = some bf ∧
        (loadAssertions d dir lf w).err = none ∧
        (loadAssertions d dir lf w).opened = dc.map (d.Join dir) ∧
        (loadAssertions d dir lf w).loaded = [] ∧
        (loadAssertions d dir lf w).world = w) ∧
    (∀ f dc rss bf, lf = some f → d.ReadDir dir = .ok dc →
      readAll d dir dc d.NewBatch = some (rss, bf) →
      loadedAllNil f rss.flatten w = true →
        (loadAssertions d dir lf w).batch = some bf ∧
        (loadAssertions d dir lf w).err = none ∧
        (loadAssertions d dir lf w).opened = dc.map (d.Join dir) ∧
        (loadAssertions d dir lf w).loaded = rss.flatten ∧
        (loadAssertions d dir lf w).world = loadedWorldAfter f rss.flatten w) := by
  have hsucc : ∀ dc rss bf, d.ReadDir dir = .ok dc →
      readAll d dir dc d.NewBatch = some (rss, bf) →
      optAllNil lf rss.flatten w = true →
        (loadAssertions d dir lf w).batch = some bf ∧
        (loadAssertions d dir lf w).err = none ∧
        (loadAssertions d dir lf w).opened = dc.map (d.Join dir) ∧
        (loadAssertions d dir lf w).loaded = optLoaded lf rss.flatten ∧
        (loadAssertions d dir lf w).world = optWorldAfter lf rss.flatten w := by
    intro dc rss bf hrd hread hok
    have happ := loadLoop_append d dir lf dc [] d.NewBatch bf w rss hread hok
    rw [List.append_nil] at happ
    rw [loadAssertions_of_ReadDir_ok d dir _ w _ hrd, happ]
    simp [loadLoop]
  refine ⟨?_, ?_, ?_, ?_, ?_, hsucc, ?_, ?_⟩
  · unfold loadAssertions
    cases hrd : d.ReadDir dir with
    | error e =>
      simp only
      split
      · left; exact ⟨rfl, rfl⟩
      · left; exact ⟨rfl, rfl⟩
    | ok dc => exact loadLoop_batch_xor_err d dir lf dc d.NewBatch w
  · intro e hrd hne
    unfold loadAssertions
    rw [hrd]
    simp [hne]
  · intro e hrd hne
    unfold loadAssertions
    rw [hrd]
    simp [hne]
  · intro pre name post rss b1 e hrd hread hok herr
    rw [loadAssertions_of_ReadDir_ok d dir lf w _ hrd,
      loadLoop_append d dir lf pre (name :: post) d.NewBatch b1 w rss hread hok,
      loadLoop_cons_read_error d dir lf name post b1 _ e herr]
    simp
  · intro f pre name post rss b1 b2 rpre ref rpost e hlf hrd hread hok hra hpre hk
    subst hlf
    rw [loadAssertions_of_ReadDir_ok d dir _ w _ hrd,
      loadLoop_append d dir (some f) pre (name :: post) d.NewBatch b1 w rss hread hok]
    simp only [optWorldAfter, optLoaded]
    rw [loadLoop_cons_loaded_error d dir f name post b1 b2 _ rpre ref rpost e hra hpre hk]
    simp
  · intro dc rss bf hlf hrd hread
    subst hlf
    exact hsucc dc rss bf hrd hread rfl
  · intro f dc rss bf hlf hrd hread hok
    subst hlf
    exact hsucc dc rss bf hrd hread hok

/-- C18 at the concrete seed: the directory "seed" loads the references 1, 2, 3
in that order into the batch, with a `loadedFunc` and without one; in "broken"
the unreadable file "b" stops the loop before "c"; a `loadedFunc` refusing
reference 2 stops it inside "a"; a missing directory gives ErrNoAssertions and
an unreadable one the formatted error. -/
theorem C18_witness :
    ((loadAssertions exampleDeps "seed" (some (loggingFunc 9)) []).batch = some [1, 2, 3] ∧
      (loadAssertions exampleDeps "seed" (some (loggingFunc 9)) []).err = none ∧
      (loadAssertions exampleDeps "seed" (some (loggingFunc 9)) []).loaded = [1, 2, 3]) ∧
    ((loadAssertions exampleDeps "seed" none ([] : List Nat)).batch = some [1, 2, 3] ∧
      (loadAssertions exampleDeps "seed" none ([] : List Nat)).err = none ∧
      (loadAssertions exampleDeps "seed" none ([] : List Nat)).loaded = []) ∧
    ((loadAssertions exampleDeps "broken" (some (loggingFunc 9)) []).err =
        some (ExError.formatted "cannot read assertions: open broken/b: permission denied") ∧
      (loadAssertions exampleDeps "broken" (some (loggingFunc 9)) []).opened =
        ["broken/a", "broken/b"]) ∧
    ((loadAssertions exampleDeps "seed" (some (loggingFunc 2)) []).err = some ExError.refused ∧
      (loadAssertions exampleDeps "seed" (some (loggingFunc 2)) []).loaded = [1, 2]) ∧
    (loadAssertions exampleDeps "nowhere" (some (loggingFunc 9)) []).err =
      some ExError.noAssertions ∧
    (loadAssertions exampleDeps "locked" (some (loggingFunc 9)) []).err =
      some (ExError.formatted "cannot read assertions dir: open locked: permission denied") :=
  have hok := (C18_loadAssertions_outcomes exampleDeps "seed" (some (loggingFunc 9))
    []).2.2.2.2.2.2.2
    (loggingFunc 9) ["a", "b"] [[1, 2], [3]] [1, 2, 3] rfl rfl (by decide) (by decide)
  have hnil := (C18_loadAssertions_outcomes exampleDeps "seed" none
    ([] : List Nat)).2.2.2.2.2.2.1
    ["a", "b"] [[1, 2], [3]] [1, 2, 3] rfl rfl (by decide)
  have hfile := (C18_loadAssertions_outcomes exampleDeps "broken" (some (loggingFunc 9))
    []).2.2.2.1 ["a"] "b" ["c"] [[1, 2]] [1, 2] (ExError.permission "broken/b")
    rfl (by decide) (by decide) rfl
  have hfunc := (C18_loadAssertions_outcomes exampleDeps "seed" (some (loggingFunc 2))
    []).2.2.2.2.1 (loggingFunc 2) [] "a" ["b"] [] [] [1, 2] [1] 2 [] ExError.refused rfl
    rfl (by decide) (by decide) rfl (by decide) (by decide)
  have hdir := (C18_loadAssertions_outcomes exampleDeps "nowhere" (some (loggingFunc 9))
    []).2.1 (ExError.notExist "nowhere") rfl (by decide)
  have hlocked := (C18_loadAssertions_outcomes exampleDeps "locked" (some (loggingFunc 9))
    []).2.2.1 (ExError.permission "locked") rfl (by decide)
  ⟨⟨hok.1, hok.2.1, hok.2.2.2.1⟩, ⟨hnil.1, hnil.2.1, hnil.2.2.2.1⟩,
   ⟨hfile.2.1, hfile.2.2.1⟩, ⟨hfunc.2.1, hfunc.2.2.2⟩, hdir.2.1, hlocked.2.1⟩

end Seed
